import Mathlib

/-!
Verification of the cross-window stream registry of `simpleStreamSync.ts`
(class `SimpleStreamSync`).

The registry keeps all of its state in the browser's `localStorage`, which we
embed as an association list from keys to stored values.  The key strings of
the source (`pandapi_stream_<id>`, `pandapi_global_streams`,
`pandapi_chat_<id>`, and unrelated keys) are embedded as the constructors of
`Key`; the `startsWith 'pandapi_stream_'` test of the source corresponds to
matching on `Key.stream`.  A stored string is embedded as a `Value`: a string
that parses as a stream-record object is `Value.streamVal`, a parseable array
of records is `Value.streamListVal`, a parseable array of chat messages is
`Value.chatListVal`, and a string on which `JSON.parse` throws is
`Value.corruptVal`.  Values that parse as JSON of an unexpected shape (for
example an array stored under an individual-record key) are outside the
modelled state space except where the source's behaviour on them coincides
with one of the four constructors; the predicate `WS` below delimits the
well-shaped states.

JavaScript numbers holding epoch-millisecond timestamps and viewer counts are
embedded as `Int` (all arithmetic the source performs on them is integral and
far from 2^53).  The source's generated identifiers (`Date.now()` plus a
random suffix) are taken as parameters.
-/

namespace StreamSync

/-- `StreamData` of `simpleStreamSync.ts`. -/
structure StreamData where
  id : String
  title : String
  category : String
  topic : String
  streamerAddress : String
  isLive : Bool
  viewerCount : Int
  startTime : Int
  moderators : List String
  lastUpdate : Int
deriving DecidableEq, Repr

/-- The `type` field of `ChatMessage`: `'message' | 'join' | 'leave' | 'system'`. -/
inductive MsgType where
  | message
  | join
  | leave
  | system
deriving DecidableEq, Repr

/-- `ChatMessage` of `simpleStreamSync.ts`. -/
structure ChatMessage where
  id : String
  streamId : String
  sender : String
  senderAddress : Option String
  message : String
  timestamp : Int
  type : MsgType
deriving DecidableEq, Repr

/-- A `localStorage` key.  `Key.stream id` stands for the string
`pandapi_stream_<id>`, `Key.globalIdx` for `pandapi_global_streams`,
`Key.chat id` for `pandapi_chat_<id>`, and `Key.other name` for any key not
of those three forms. -/
inductive Key where
  | stream (id : String)
  | globalIdx
  | chat (id : String)
  | other (name : String)
deriving DecidableEq, Repr

/-- A stored string, classified by how `JSON.parse` sees it (see the module
doc comment). -/
inductive Value where
  | streamVal (s : StreamData)
  | streamListVal (l : List StreamData)
  | chatListVal (l : List ChatMessage)
  | corruptVal
deriving DecidableEq, Repr

/-- `localStorage` as an association list, in key-slot order (`localStorage.key(i)`
enumerates the i-th binding). -/
abbrev Storage := List (Key × Value)

/-- `localStorage.getItem` (`null` becomes `none`). -/
def getItem : Storage → Key → Option Value
  | [], _ => none
  | (k', v) :: rest, k => if k' = k then some v else getItem rest k

/-- `localStorage.setItem`: overwrite the existing slot in place, else append
a new slot. -/
def setItem : Storage → Key → Value → Storage
  | [], k, v => [(k, v)]
  | (k', v') :: rest, k, v =>
      if k' = k then (k, v) :: rest else (k', v') :: setItem rest k v

/-- `localStorage.removeItem` (keys are unique in `localStorage`, so removing
every binding of the key is the removal of its single slot). -/
def removeItem (st : Storage) (k : Key) : Storage :=
  st.filter (fun p => decide (p.1 ≠ k))

/-- `24 * 60 * 60 * 1000`, the `maxAge` cutoff of `getAllStreamsFromStorage`. -/
def maxAge : Int := 24 * 60 * 60 * 1000

/-!
### `getAllStreamsFromStorage`

The source builds `streams` / `streamIds` in two phases and mutates storage as
it goes.  Phase 1 walks the parsed global index; phase 2 is
`for (let i = 0; i < localStorage.length; i++) ...` which re-reads
`localStorage.length` and `localStorage.key(i)` every iteration while the loop
body calls `removeItem`, so a removal shifts the later keys down by one and the
next key is skipped.  We embed the loop with an explicit slot index `i` and a
structural fuel argument; the fuel starts at the storage length, and since `i`
grows by one per iteration while the length never grows, the fuel can never run
out before the loop condition `i < length` fails.
-/

/-- One iteration of the `parsedStreams.forEach` body of phase 1 of
`getAllStreamsFromStorage` (lines 157-188 of the source), acting on the
accumulator `(streams, streamIds, storage)` for the index entry `e`. -/
def method1Step (now : Int) (acc : List StreamData × List String × Storage)
    (e : StreamData) : List StreamData × List String × Storage :=
  let streams := acc.1
  let ids := acc.2.1
  let st := acc.2.2
  let streamAge := now - e.startTime
  if e.isLive = true ∧ e.id ≠ "" ∧ e.id ∉ ids ∧ streamAge < maxAge then
    match getItem st (Key.stream e.id) with
    | some (Value.streamVal v) =>
        if v.isLive then (streams ++ [v], ids ++ [e.id], st)
        else (streams, ids, st)
    | some Value.corruptVal => (streams, ids, removeItem st (Key.stream e.id))
    | some _ => (streams, ids, st)
    | none => (streams, ids, st)
  else if streamAge ≥ maxAge then (streams, ids, removeItem st (Key.stream e.id))
  else (streams, ids, st)

/-- Phase 1 of `getAllStreamsFromStorage`: read `pandapi_global_streams`; if it
is absent or fails to parse as an array the phase is skipped, otherwise the
`forEach` above runs over its entries. -/
def method1 (st : Storage) (now : Int) : List StreamData × List String × Storage :=
  match getItem st Key.globalIdx with
  | some (Value.streamListVal l) => l.foldl (method1Step now) ([], [], st)
  | _ => ([], [], st)

/-- Phase 2 of `getAllStreamsFromStorage` (lines 195-221): the index-driven
scan over every storage slot.  A slot whose key is not an individual-record key
is skipped; otherwise the stored value is re-read with `getItem`.  A value that
fails to parse is removed (`catch` branch); a parsed record is pushed when it
is live, has a nonempty id, is not a duplicate and is younger than `maxAge`,
and removed when it is not live or too old.  A parsed value of a shape other
than a record object has an undefined `isLive`, so `!stream.isLive` holds and
it is removed by the same `else if`. -/
def scanGo (now : Int) : Nat → Storage → List StreamData → List String → Nat →
    List StreamData × List String × Storage
  | 0, st, streams, ids, _ => (streams, ids, st)
  | fuel + 1, st, streams, ids, i =>
      if h : i < st.length then
        let key := (st.get ⟨i, h⟩).1
        match key with
        | Key.stream _ =>
            (match getItem st key with
             | some (Value.streamVal s) =>
                 if s.isLive = true ∧ s.id ≠ "" ∧ s.id ∉ ids ∧ now - s.startTime < maxAge then
                   scanGo now fuel st (streams ++ [s]) (ids ++ [s.id]) (i + 1)
                 else if s.isLive = false ∨ now - s.startTime ≥ maxAge then
                   scanGo now fuel (removeItem st key) streams ids (i + 1)
                 else scanGo now fuel st streams ids (i + 1)
             | some Value.corruptVal =>
                 scanGo now fuel (removeItem st key) streams ids (i + 1)
             | some _ => scanGo now fuel (removeItem st key) streams ids (i + 1)
             | none => scanGo now fuel st streams ids (i + 1))
        | _ => scanGo now fuel st streams ids (i + 1)
      else (streams, ids, st)

/-- `getAllStreamsFromStorage` (lines 146-236): phase 1, phase 2, then the
global index is rewritten to the live members of the collected list and the
list is returned through a final `isLive` filter. -/
def getAllStreamsFromStorage (st : Storage) (now : Int) : List StreamData × Storage :=
  let a1 := method1 st now
  let a2 := scanGo now a1.2.2.length a1.2.2 a1.1 a1.2.1 0
  let liveStreams := a2.1.filter (fun s => s.isLive)
  (a2.1.filter (fun s => s.isLive),
   setItem a2.2.2 Key.globalIdx (Value.streamListVal liveStreams))

/-- `getAllActiveStreams` (lines 386-388) forwards to `getAllStreamsFromStorage`. -/
def getAllActiveStreams (st : Storage) (now : Int) : List StreamData × Storage :=
  getAllStreamsFromStorage st now

/-- `storeStream` (lines 277-309): write the individual record, re-read the
global index (resetting it to `[]` when absent or unparseable), drop any entry
with the same id, append the record when it is live, and write the index back. -/
def storeStream (st : Storage) (s : StreamData) : Storage :=
  let st1 := setItem st (Key.stream s.id) (Value.streamVal s)
  let globalStreams : List StreamData :=
    match getItem st1 Key.globalIdx with
    | some (Value.streamListVal l) => l
    | _ => []
  let filtered := globalStreams.filter (fun e => decide (e.id ≠ s.id))
  let newList := if s.isLive then filtered ++ [s] else filtered
  setItem st1 Key.globalIdx (Value.streamListVal newList)

/-- `Partial<StreamData>`, the `updates` argument of `updateStream`. -/
structure StreamUpdate where
  id : Option String
  title : Option String
  category : Option String
  topic : Option String
  streamerAddress : Option String
  isLive : Option Bool
  viewerCount : Option Int
  startTime : Option Int
  moderators : Option (List String)
  lastUpdate : Option Int
deriving DecidableEq, Repr

/-- The update object carrying no field. -/
def noUpdate : StreamUpdate :=
  ⟨none, none, none, none, none, none, none, none, none, none⟩

/-- The spread `{ ...stream, ...updates }`: each field present in `updates`
replaces the corresponding field of `stream`. -/
def applyUpdate (s : StreamData) (u : StreamUpdate) : StreamData :=
  { id := u.id.getD s.id
    title := u.title.getD s.title
    category := u.category.getD s.category
    topic := u.topic.getD s.topic
    streamerAddress := u.streamerAddress.getD s.streamerAddress
    isLive := u.isLive.getD s.isLive
    viewerCount := u.viewerCount.getD s.viewerCount
    startTime := u.startTime.getD s.startTime
    moderators := u.moderators.getD s.moderators
    lastUpdate := u.lastUpdate.getD s.lastUpdate }

/-- `updateStream` (lines 312-333): read the individual record; when absent
return `false`; when it fails to parse the thrown error is caught and `false`
is returned with storage untouched; otherwise merge, stamp `lastUpdate`,
re-persist via `storeStream` and return `true`. -/
def updateStream (st : Storage) (streamId : String) (u : StreamUpdate) (now : Int) :
    Bool × Storage :=
  match getItem st (Key.stream streamId) with
  | some (Value.streamVal s) =>
      let s1 := applyUpdate s u
      let s2 : StreamData := { s1 with lastUpdate := now }
      (true, storeStream st s2)
  | _ => (false, st)

/-- `endStream` (lines 336-383): mark not-live via `updateStream`, drop the id
from the global index when the index parses (a corrupt index is caught and left
in place), then remove the individual record and the chat transcript. -/
def endStream (st : Storage) (streamId : String) (now : Int) : Storage :=
  let st1 := (updateStream st streamId { noUpdate with isLive := some false } now).2
  let st2 :=
    match getItem st1 Key.globalIdx with
    | some (Value.streamListVal l) =>
        setItem st1 Key.globalIdx
          (Value.streamListVal (l.filter (fun e => decide (e.id ≠ streamId))))
    | _ => st1
  let st3 := removeItem st2 (Key.stream streamId)
  removeItem st3 (Key.chat streamId)

/-- `getChatMessages` (lines 449-457): read the transcript; absence gives `[]`
and a parse failure is caught and also gives `[]` (the key is left in place). -/
def getChatMessages (st : Storage) (streamId : String) : List ChatMessage :=
  match getItem st (Key.chat streamId) with
  | some (Value.chatListVal l) => l
  | _ => []

/-- `array.slice(-n)`: the suffix of the most recent `n` elements. -/
def lastN (n : Nat) (l : List α) : List α := l.drop (l.length - n)

/-- `sendMessage` (lines 418-446): build the message, append it to the current
transcript, truncate to the most recent 100 and persist; returns `true` (the
`catch` branch fires only on storage-quota failures, which the embedding does
not model). -/
def sendMessage (st : Storage) (streamId sender message : String)
    (senderAddress : Option String) (msgId : String) (now : Int) : Bool × Storage :=
  let m : ChatMessage :=
    { id := msgId, streamId := streamId, sender := sender,
      senderAddress := senderAddress, message := message, timestamp := now,
      type := MsgType.message }
  let updated := lastN 100 (getChatMessages st streamId ++ [m])
  (true, setItem st (Key.chat streamId) (Value.chatListVal updated))

/-- `joinStream` (lines 460-489): look the stream up in
`getAllActiveStreams()` (a call that itself mutates storage); on a miss return
`false`; on a hit bump the viewer count via `updateStream`, append a synthetic
`join` message and return `true`. -/
def joinStream (st : Storage) (streamId viewerName : String)
    (viewerAddress : Option String) (msgId : String) (now : Int) : Bool × Storage :=
  let r := getAllActiveStreams st now
  match r.1.find? (fun s => s.id == streamId) with
  | some stream =>
      let st2 := (updateStream r.2 streamId
        { noUpdate with viewerCount := some (stream.viewerCount + 1) } now).2
      let joinMessage : ChatMessage :=
        { id := msgId, streamId := streamId, sender := "System",
          senderAddress := none, message := viewerName ++ " joined the stream",
          timestamp := now, type := MsgType.join }
      let updated := lastN 100 (getChatMessages st2 streamId ++ [joinMessage])
      (true, setItem st2 (Key.chat streamId) (Value.chatListVal updated))
  | none => (false, r.2)

/-- `leaveStream` (lines 492-520): as `joinStream`, with the count decremented
through `Math.max(0, ...)` and a synthetic `leave` message. -/
def leaveStream (st : Storage) (streamId viewerName : String)
    (msgId : String) (now : Int) : Bool × Storage :=
  let r := getAllActiveStreams st now
  match r.1.find? (fun s => s.id == streamId) with
  | some stream =>
      let st2 := (updateStream r.2 streamId
        { noUpdate with viewerCount := some (max 0 (stream.viewerCount - 1)) } now).2
      let leaveMessage : ChatMessage :=
        { id := msgId, streamId := streamId, sender := "System",
          senderAddress := none, message := viewerName ++ " left the stream",
          timestamp := now, type := MsgType.leave }
      let updated := lastN 100 (getChatMessages st2 streamId ++ [leaveMessage])
      (true, setItem st2 (Key.chat streamId) (Value.chatListVal updated))
  | none => (false, r.2)

/-- `storeStreamFromBroadcast` (lines 550-563): persist a foreign
`streamCreated` payload only when it is live, has a (truthy) id and no
individual record for it exists yet. -/
def storeStreamFromBroadcast (st : Storage) (s : StreamData) : Storage :=
  if s.isLive = true ∧ s.id ≠ "" then
    match getItem st (Key.stream s.id) with
    | none => storeStream st s
    | some _ => st
  else st

/-- `removeStreamFromBroadcast` (lines 565-581): remove the individual record
and transcript, then filter the id out of the global index when the index
parses; a corrupt index makes `JSON.parse` throw after the removals, so the
index is left as it was. -/
def removeStreamFromBroadcast (st : Storage) (streamId : String) : Storage :=
  let st1 := removeItem st (Key.stream streamId)
  let st2 := removeItem st1 (Key.chat streamId)
  match getItem st2 Key.globalIdx with
  | some (Value.streamListVal l) =>
      setItem st2 Key.globalIdx
        (Value.streamListVal (l.filter (fun e => decide (e.id ≠ streamId))))
  | _ => st2

/-!
### The event hub

A subscriber callback is embedded as a state transformer that may also throw:
it returns the state as mutated by the callback's side effects up to the point
of return or throw, together with the thrown exception if any.  `try
{ listener(data) } catch (error) { console.error(...) }` keeps the mutated
state and swallows the exception, which is `fun acc f => (f acc).1`. -/
def Callback (σ ε : Type) : Type := σ → σ × Option ε

/-- The `listeners` map, event name to registration-ordered callback list. -/
def Listeners (σ ε : Type) : Type := List (String × List (Callback σ ε))

/-- `this.listeners.get(event) || []`. -/
def getListeners : Listeners σ ε → String → List (Callback σ ε)
  | [], _ => []
  | (e, cbs) :: rest, event => if e = event then cbs else getListeners rest event

/-- Replace the callback list bound to an event (the `Map.set` backing `on`). -/
def setListeners : Listeners σ ε → String → List (Callback σ ε) → Listeners σ ε
  | [], event, cbs => [(event, cbs)]
  | (e, old) :: rest, event, cbs =>
      if e = event then (event, cbs) :: rest else (e, old) :: setListeners rest event cbs

/-- `on` (lines 523-528): append the callback to the event's list.  (`on` is
a reserved notation token in Lean, hence the name `onEvent`.) -/
def onEvent (ls : Listeners σ ε) (event : String) (cb : Callback σ ε) : Listeners σ ε :=
  setListeners ls event (getListeners ls event ++ [cb])

/-- Run a callback list in order, each invocation wrapped in the per-callback
`try`/`catch`. -/
def runCallbacks (cbs : List (Callback σ ε)) (s : σ) : σ :=
  cbs.foldl (fun acc f => (f acc).1) s

/-- `triggerListeners` (lines 538-547). -/
def triggerListeners (ls : Listeners σ ε) (event : String) (s : σ) : σ :=
  runCallbacks (getListeners ls event) s

/-- The accumulator after phase 1 and phase 2 of `getAllStreamsFromStorage`. -/
def scanPart (st : Storage) (now : Int) : List StreamData × List String × Storage :=
  scanGo now (method1 st now).2.2.length (method1 st now).2.2 (method1 st now).1
    (method1 st now).2.1 0


/-!
### State-space predicates

`localStorage` can hold arbitrary strings, but the registry itself only ever
writes a record object under an individual-record key, an array of records
under the index key and an array of messages under a transcript key.  `WS`
(well-shaped) delimits the states where every registry key holds its own
shape or a corrupt string; `WF` (well-filed) states that a record stored
under `pandapi_stream_<id>` carries that `id`; `IdxOK` states that every
entry of the global index equals the individual record stored for its id.
`capOK` bounds every stored transcript by 100 and `countsOK` asserts
non-negative viewer counts everywhere.
-/

/-- A pairwise storage predicate holding of every binding. -/
def StOK (P : Key → Value → Bool) (st : Storage) : Prop :=
  ∀ p ∈ st, P p.1 p.2 = true

def WFpair (k : Key) (v : Value) : Bool :=
  match k, v with
  | Key.stream i, Value.streamVal s => s.id == i
  | _, _ => true

def WF (st : Storage) : Prop := StOK WFpair st

def WSpair (k : Key) (v : Value) : Bool :=
  match k, v with
  | Key.stream _, Value.streamVal _ => true
  | Key.stream _, Value.corruptVal => true
  | Key.stream _, _ => false
  | Key.globalIdx, Value.streamListVal _ => true
  | Key.globalIdx, Value.corruptVal => true
  | Key.globalIdx, _ => false
  | Key.chat _, Value.chatListVal _ => true
  | Key.chat _, Value.corruptVal => true
  | Key.chat _, _ => false
  | Key.other _, _ => true

def WS (st : Storage) : Prop := StOK WSpair st

def capPair (k : Key) (v : Value) : Bool :=
  match k, v with
  | Key.chat _, Value.chatListVal l => decide (l.length ≤ 100)
  | _, _ => true

def capOK (st : Storage) : Prop := StOK capPair st

def countsPair (k : Key) (v : Value) : Bool :=
  match k, v with
  | Key.stream _, Value.streamVal s => decide (0 ≤ s.viewerCount)
  | Key.globalIdx, Value.streamListVal l => l.all (fun e => decide (0 ≤ e.viewerCount))
  | _, _ => true

def countsOK (st : Storage) : Prop := StOK countsPair st

def IdxOK (st : Storage) : Bool :=
  match getItem st Key.globalIdx with
  | some (Value.streamListVal l) =>
      l.all (fun e => decide (getItem st (Key.stream e.id) = some (Value.streamVal e)))
  | _ => true

instance (P : Key → Value → Bool) (st : Storage) : Decidable (StOK P st) :=
  inferInstanceAs (Decidable (∀ p ∈ st, P p.1 p.2 = true))

instance (st : Storage) : Decidable (WF st) :=
  inferInstanceAs (Decidable (StOK WFpair st))

instance (st : Storage) : Decidable (WS st) :=
  inferInstanceAs (Decidable (StOK WSpair st))

instance (st : Storage) : Decidable (capOK st) :=
  inferInstanceAs (Decidable (StOK capPair st))

instance (st : Storage) : Decidable (countsOK st) :=
  inferInstanceAs (Decidable (StOK countsPair st))


/-!
### Support definitions for the claims
-/

/-- The storage effect of a sequence of `getAllActiveStreams` calls at the
given times. -/
def iterGetAll (st : Storage) : List Int → Storage
  | [] => st
  | t :: ts => iterGetAll (getAllStreamsFromStorage st t).2 ts

/-- The caller-supplied arguments of one `sendMessage` call (with the
generated message id and `Date.now()` made explicit). -/
structure MsgIn where
  sender : String
  message : String
  senderAddress : Option String
  msgId : String
  now : Int
deriving DecidableEq, Repr

/-- The `ChatMessage` that `sendMessage` builds from the given arguments. -/
def mkMsg (streamId : String) (m : MsgIn) : ChatMessage :=
  { id := m.msgId, streamId := streamId, sender := m.sender,
    senderAddress := m.senderAddress, message := m.message, timestamp := m.now,
    type := MsgType.message }

/-- Send a sequence of messages to one stream. -/
def sendMany (st : Storage) (streamId : String) (ms : List MsgIn) : Storage :=
  ms.foldl
    (fun s m => (sendMessage s streamId m.sender m.message m.senderAddress m.msgId m.now).2) st

/-- One chat-affecting registry operation, for quantifying over call
sequences. -/
inductive RegistryOp where
  | send (streamId : String) (m : MsgIn)
  | join (streamId viewerName : String) (viewerAddress : Option String)
      (msgId : String) (now : Int)
  | leave (streamId viewerName : String) (msgId : String) (now : Int)

/-- The storage effect of one operation. -/
def applyOp (st : Storage) : RegistryOp → Storage
  | RegistryOp.send streamId m =>
      (sendMessage st streamId m.sender m.message m.senderAddress m.msgId m.now).2
  | RegistryOp.join streamId vn va mid t => (joinStream st streamId vn va mid t).2
  | RegistryOp.leave streamId vn mid t => (leaveStream st streamId vn mid t).2

/-- The storage effect of a sequence of operations. -/
def applyOps (st : Storage) (ops : List RegistryOp) : Storage := ops.foldl applyOp st

/-!
### Concrete storage states for counterexamples and witnesses

`maxAge` is 86400000; with `now = 90000000` a record started at time 0 is
25 hours old (stale) while one started at 89000000 or 89999999 is fresh.
-/

def recA : StreamData := ⟨"a", "t", "c", "p", "w", true, 0, 0, [], 0⟩

/-- An index entry for id `a` whose `startTime` is fresh at `now = 90000000`,
unlike the stored record `recA`. -/
def entryA : StreamData := { recA with startTime := 89999999 }

def recB : StreamData := ⟨"b", "t", "c", "p", "w", true, 0, 89000000, [], 0⟩

def msgA : ChatMessage := ⟨"m0", "a", "s", none, "hi", 0, MsgType.message⟩

/-- Index entry fresh, stored record stale, plus a live fresh record `b`
missing from the index. -/
def stC1 : Storage :=
  [(Key.globalIdx, Value.streamListVal [entryA]),
   (Key.stream "a", Value.streamVal recA),
   (Key.stream "b", Value.streamVal recB)]

/-- A live stream with its index entry and a chat transcript. -/
def stC2 : Storage :=
  [(Key.stream "a", Value.streamVal recA),
   (Key.globalIdx, Value.streamListVal [recA]),
   (Key.chat "a", Value.chatListVal [msgA])]

def stCorruptRec : Storage := [(Key.stream "a", Value.corruptVal)]

def stCorruptChat : Storage := [(Key.chat "c", Value.corruptVal)]

/-- A single stored live record and no global index key. -/
def stC4 : Storage := [(Key.stream "a", Value.streamVal recA)]

/-- A global index naming id `a` for which no individual record exists. -/
def stC5 : Storage := [(Key.globalIdx, Value.streamListVal [entryA])]

/-- A stale live record scanned just before a live fresh record that the
index does not mention. -/
def stC8 : Storage :=
  [(Key.stream "a", Value.streamVal recA), (Key.stream "b", Value.streamVal recB)]

/-- A coherent state: the single record is live, fresh at small times, and the
index entry equals it. -/
def stIdx : Storage :=
  [(Key.stream "a", Value.streamVal recA), (Key.globalIdx, Value.streamListVal [recA])]

/-- 150 message inputs. -/
def wMsgs : List MsgIn := (List.range 150).map (fun i => ⟨"s", "m", none, "id", (i : Int)⟩)

/-- A subscriber callback that mutates the (numeric) state and then throws. -/
def wThrow : Callback Int String := fun x => (x + 1, some "boom")

/-- A subscriber callback that mutates the state and returns normally. -/
def wTame : Callback Int String := fun x => (x * 2, none)

/-!
### Basic lemmas about the storage primitives
-/

theorem getItem_setItem_self (st : Storage) (k : Key) (v : Value) :
    getItem (setItem st k v) k = some v := by
  induction st with
  | nil => simp [setItem, getItem]
  | cons p rest ih =>
      obtain ⟨k', v'⟩ := p
      by_cases h : k' = k
      · simp [setItem, getItem, h]
      · simp [setItem, getItem, h, ih]

theorem removeItem_cons (k' : Key) (v' : Value) (rest : Storage) (k : Key) :
    removeItem ((k', v') :: rest) k =
      if k' = k then removeItem rest k else (k', v') :: removeItem rest k := by
  by_cases h : k' = k <;> simp [removeItem, List.filter_cons, h]

theorem getItem_setItem_ne (st : Storage) (k q : Key) (v : Value) (h : q ≠ k) :
    getItem (setItem st k v) q = getItem st q := by
  induction st with
  | nil => simp [setItem, getItem, Ne.symm h]
  | cons p rest ih =>
      obtain ⟨k', v'⟩ := p
      simp only [setItem]
      split_ifs with h1
      · subst h1
        simp [getItem, Ne.symm h]
      · simp [getItem, ih]

theorem getItem_removeItem_self (st : Storage) (k : Key) :
    getItem (removeItem st k) k = none := by
  induction st with
  | nil => simp [removeItem, getItem]
  | cons p rest ih =>
      obtain ⟨k', v'⟩ := p
      rw [removeItem_cons]
      split_ifs with h
      · exact ih
      · simp [getItem, h, ih]

theorem getItem_removeItem_ne (st : Storage) (k q : Key) (h : q ≠ k) :
    getItem (removeItem st k) q = getItem st q := by
  induction st with
  | nil => simp [removeItem, getItem]
  | cons p rest ih =>
      obtain ⟨k', v'⟩ := p
      rw [removeItem_cons]
      split_ifs with h1
      · subst h1
        rw [ih]
        simp [getItem, Ne.symm h]
      · simp [getItem, ih]

theorem getItem_mem (st : Storage) (k : Key) (v : Value) (h : getItem st k = some v) :
    (k, v) ∈ st := by
  induction st with
  | nil => simp [getItem] at h
  | cons p rest ih =>
      obtain ⟨k', v'⟩ := p
      by_cases h1 : k' = k
      · subst h1
        simp [getItem] at h
        simp [h]
      · simp [getItem, h1] at h
        exact List.mem_cons_of_mem _ (ih h)

theorem setItem_setItem_same (st : Storage) (k : Key) (v w : Value) :
    setItem (setItem st k v) k w = setItem st k w := by
  induction st with
  | nil => simp [setItem]
  | cons p rest ih =>
      obtain ⟨k', v'⟩ := p
      by_cases h : k' = k <;> simp [setItem, h, ih]

theorem removeItem_setItem_self (st : Storage) (k : Key) (v : Value) :
    removeItem (setItem st k v) k = removeItem st k := by
  induction st with
  | nil => simp [setItem, removeItem]
  | cons p rest ih =>
      obtain ⟨k', v'⟩ := p
      by_cases h : k' = k
      · subst h
        simp [setItem, removeItem_cons]
      · simp [setItem, h, removeItem_cons, ih]

theorem removeItem_setItem_ne (st : Storage) (k q : Key) (v : Value) (h : k ≠ q) :
    removeItem (setItem st k v) q = setItem (removeItem st q) k v := by
  induction st with
  | nil => simp [setItem, removeItem, h]
  | cons p rest ih =>
      obtain ⟨k', v'⟩ := p
      by_cases h1 : k' = k
      · subst h1
        simp [setItem, removeItem_cons, h]
      · by_cases h2 : k' = q
        · subst h2
          simp [setItem, h1, removeItem_cons, ih]
        · simp [setItem, h1, h2, removeItem_cons, ih]

theorem removeItem_comm (st : Storage) (k q : Key) :
    removeItem (removeItem st k) q = removeItem (removeItem st q) k := by
  simp only [removeItem, List.filter_filter]
  congr 1
  funext p
  by_cases h1 : p.1 = k <;> by_cases h2 : p.1 = q <;> simp [h1, h2]

theorem removeItem_length_le (st : Storage) (k : Key) :
    (removeItem st k).length ≤ st.length :=
  List.length_filter_le _ _

theorem removeItem_length_lt (st : Storage) (k : Key) (v : Value)
    (h : (k, v) ∈ st) : (removeItem st k).length < st.length := by
  induction st with
  | nil => simp at h
  | cons p rest ih =>
      obtain ⟨k', v'⟩ := p
      rw [removeItem_cons]
      by_cases h1 : k' = k
      · simpa [h1] using Nat.lt_succ_of_le (removeItem_length_le rest k)
      · rcases List.mem_cons.mp h with h2 | h2
        · exact absurd (congrArg Prod.fst h2).symm h1
        · simpa [h1] using Nat.succ_lt_succ (ih h2)

/-- The fuel of `scanGo` is irrelevant as soon as it covers the remaining
slots, so `scanGo` run with fuel `st.length` is exactly the source's unbounded
`for` loop: the slot index grows by one per iteration while the storage length
never grows. -/
theorem scanGo_fuel (now : Int) :
    ∀ f1 f2 st streams ids i, st.length - i ≤ f1 → st.length - i ≤ f2 →
      scanGo now f1 st streams ids i = scanGo now f2 st streams ids i := by
  intro f1
  induction f1 with
  | zero =>
      intro f2 st streams ids i h1 h2
      have hi : ¬ i < st.length := by omega
      cases f2 with
      | zero => rfl
      | succ f2 => simp [scanGo, hi]
  | succ f1 ih =>
      intro f2 st streams ids i h1 h2
      cases f2 with
      | zero =>
          have hi : ¬ i < st.length := by omega
          simp [scanGo, hi]
      | succ f2 =>
          by_cases hi : i < st.length
          · have hrem : ∀ k v, (k, v) ∈ st →
                (removeItem st k).length - (i + 1) ≤ f1 ∧
                (removeItem st k).length - (i + 1) ≤ f2 := by
              intro k v hm
              have := removeItem_length_lt st k v hm
              omega
            have hkeep : st.length - (i + 1) ≤ f1 ∧ st.length - (i + 1) ≤ f2 := by omega
            simp only [scanGo, dif_pos hi]
            rcases hk : (st.get ⟨i, hi⟩).1 with x | _ | x | x
            all_goals simp only [hk]
            · rcases hv : getItem st (Key.stream x) with _ | v
              · exact ih f2 st _ _ _ hkeep.1 hkeep.2
              · have hmem := getItem_mem st (Key.stream x) v hv
                rcases v with s | l | l | _
                · by_cases hc : s.isLive = true ∧ s.id ≠ "" ∧ s.id ∉ ids ∧
                      now - s.startTime < maxAge
                  · simp only [if_pos hc]
                    exact ih f2 st _ _ _ hkeep.1 hkeep.2
                  · simp only [if_neg hc]
                    by_cases hc2 : s.isLive = false ∨ now - s.startTime ≥ maxAge
                    · simp only [if_pos hc2]
                      exact ih f2 _ _ _ _ (hrem _ _ hmem).1 (hrem _ _ hmem).2
                    · simp only [if_neg hc2]
                      exact ih f2 st _ _ _ hkeep.1 hkeep.2
                · exact ih f2 _ _ _ _ (hrem _ _ hmem).1 (hrem _ _ hmem).2
                · exact ih f2 _ _ _ _ (hrem _ _ hmem).1 (hrem _ _ hmem).2
                · exact ih f2 _ _ _ _ (hrem _ _ hmem).1 (hrem _ _ hmem).2
            · exact ih f2 st _ _ _ hkeep.1 hkeep.2
            · exact ih f2 st _ _ _ hkeep.1 hkeep.2
            · exact ih f2 st _ _ _ hkeep.1 hkeep.2
          · simp [scanGo, hi]

/-!
### Invariance machinery for `getAllStreamsFromStorage`

`scanPart` names the `(streams, streamIds, storage)` triple after both phases
and before the final index rewrite; every storage mutation inside the two
phases is a `removeItem` at an individual-record key, and every extension of
the collected list is one of the two push sites, so an invariant closed under
those steps survives both phases.
-/

theorem getAllStreamsFromStorage_eq (st : Storage) (now : Int) :
    getAllStreamsFromStorage st now =
      ((scanPart st now).1.filter (fun s => s.isLive),
       setItem (scanPart st now).2.2 Key.globalIdx
         (Value.streamListVal ((scanPart st now).1.filter (fun s => s.isLive)))) := rfl

theorem scanGo_joint (now : Int) (J : List StreamData → List String → Storage → Prop)
    (hremS : ∀ streams ids st1 x v, J streams ids st1 →
        getItem st1 (Key.stream x) = some v →
        (∀ s, v = Value.streamVal s → s.isLive = false ∨ now - s.startTime ≥ maxAge) →
        J streams ids (removeItem st1 (Key.stream x)))
    (hpushS : ∀ streams ids st1 x s, J streams ids st1 →
        getItem st1 (Key.stream x) = some (Value.streamVal s) → s.isLive = true →
        s.id ≠ "" → s.id ∉ ids → now - s.startTime < maxAge →
        J (streams ++ [s]) (ids ++ [s.id]) st1) :
    ∀ fuel st streams ids i, J streams ids st →
      J (scanGo now fuel st streams ids i).1 (scanGo now fuel st streams ids i).2.1
        (scanGo now fuel st streams ids i).2.2 := by
  intro fuel
  induction fuel with
  | zero => intro st streams ids i hJ; simpa [scanGo] using hJ
  | succ fuel ih =>
      intro st streams ids i hJ
      by_cases hi : i < st.length
      · simp only [scanGo, dif_pos hi]
        rcases hk : (st.get ⟨i, hi⟩).1 with x | _ | x | x
        all_goals simp only [hk]
        · rcases hv : getItem st (Key.stream x) with _ | v
          · exact ih st streams ids (i + 1) hJ
          · rcases v with s | l' | l' | _
            · by_cases hc : s.isLive = true ∧ s.id ≠ "" ∧ s.id ∉ ids ∧
                  now - s.startTime < maxAge
              · simp only [if_pos hc]
                exact ih _ _ _ _ (hpushS _ _ _ _ _ hJ hv hc.1 hc.2.1 hc.2.2.1 hc.2.2.2)
              · simp only [if_neg hc]
                by_cases hc2 : s.isLive = false ∨ now - s.startTime ≥ maxAge
                · simp only [if_pos hc2]
                  refine ih _ _ _ _ (hremS _ _ _ _ _ hJ hv ?_)
                  intro s2 he2
                  injection he2 with h2
                  exact h2 ▸ hc2
                · simp only [if_neg hc2]
                  exact ih _ _ _ _ hJ
            · exact ih _ _ _ _ (hremS _ _ _ _ _ hJ hv (fun s2 he2 => Value.noConfusion he2))
            · exact ih _ _ _ _ (hremS _ _ _ _ _ hJ hv (fun s2 he2 => Value.noConfusion he2))
            · exact ih _ _ _ _ (hremS _ _ _ _ _ hJ hv (fun s2 he2 => Value.noConfusion he2))
        · exact ih st streams ids (i + 1) hJ
        · exact ih st streams ids (i + 1) hJ
        · exact ih st streams ids (i + 1) hJ
      · simpa [scanGo, hi] using hJ

theorem method1_fold_joint (now : Int) (J : List StreamData → List String → Storage → Prop)
    (l0 : List StreamData)
    (hremS : ∀ streams ids st1 x v, J streams ids st1 →
        getItem st1 (Key.stream x) = some v →
        (∀ s, v = Value.streamVal s → s.isLive = false ∨ now - s.startTime ≥ maxAge) →
        J streams ids (removeItem st1 (Key.stream x)))
    (hremE : ∀ streams ids st1 e, e ∈ l0 → J streams ids st1 →
        now - e.startTime ≥ maxAge → J streams ids (removeItem st1 (Key.stream e.id)))
    (hpushM : ∀ streams ids st1 e v, e ∈ l0 → J streams ids st1 → e.isLive = true →
        e.id ≠ "" → e.id ∉ ids → now - e.startTime < maxAge →
        getItem st1 (Key.stream e.id) = some (Value.streamVal v) → v.isLive = true →
        J (streams ++ [v]) (ids ++ [e.id]) st1) :
    ∀ (sub : List StreamData), (∀ e ∈ sub, e ∈ l0) → ∀ acc, J acc.1 acc.2.1 acc.2.2 →
      J (sub.foldl (method1Step now) acc).1 (sub.foldl (method1Step now) acc).2.1
        (sub.foldl (method1Step now) acc).2.2 := by
  intro sub
  induction sub with
  | nil => intro _ acc h; simpa using h
  | cons e rest ih =>
      intro hsub acc hJ
      simp only [List.foldl_cons]
      refine ih (fun e2 he2 => hsub e2 (List.mem_cons_of_mem _ he2)) _ ?_
      have he : e ∈ l0 := hsub e (List.mem_cons_self _ _)
      simp only [method1Step]
      by_cases hc : e.isLive = true ∧ e.id ≠ "" ∧ e.id ∉ acc.2.1 ∧ now - e.startTime < maxAge
      · simp only [if_pos hc]
        rcases hv : getItem acc.2.2 (Key.stream e.id) with _ | v
        · exact hJ
        · rcases v with s | l' | l' | _
          · by_cases hl : s.isLive = true
            · simp only [if_pos hl]
              exact hpushM _ _ _ _ _ he hJ hc.1 hc.2.1 hc.2.2.1 hc.2.2.2 hv hl
            · simp only [if_neg hl]
              exact hJ
          · exact hJ
          · exact hJ
          · exact hremS _ _ _ _ _ hJ hv (fun s2 he2 => Value.noConfusion he2)
      · simp only [if_neg hc]
        by_cases h2 : now - e.startTime ≥ maxAge
        · simp only [if_pos h2]
          exact hremE _ _ _ _ he hJ h2
        · simp only [if_neg h2]
          exact hJ

theorem scanPart_joint (st : Storage) (now : Int)
    (J : List StreamData → List String → Storage → Prop)
    (hstart : J [] [] st)
    (hremS : ∀ streams ids st1 x v, J streams ids st1 →
        getItem st1 (Key.stream x) = some v →
        (∀ s, v = Value.streamVal s → s.isLive = false ∨ now - s.startTime ≥ maxAge) →
        J streams ids (removeItem st1 (Key.stream x)))
    (hremE : ∀ streams ids st1 e l0,
        getItem st Key.globalIdx = some (Value.streamListVal l0) → e ∈ l0 →
        J streams ids st1 → now - e.startTime ≥ maxAge →
        J streams ids (removeItem st1 (Key.stream e.id)))
    (hpushM : ∀ streams ids st1 e v l0,
        getItem st Key.globalIdx = some (Value.streamListVal l0) → e ∈ l0 →
        J streams ids st1 → e.isLive = true → e.id ≠ "" → e.id ∉ ids →
        now - e.startTime < maxAge →
        getItem st1 (Key.stream e.id) = some (Value.streamVal v) → v.isLive = true →
        J (streams ++ [v]) (ids ++ [e.id]) st1)
    (hpushS : ∀ streams ids st1 x s, J streams ids st1 →
        getItem st1 (Key.stream x) = some (Value.streamVal s) → s.isLive = true →
        s.id ≠ "" → s.id ∉ ids → now - s.startTime < maxAge →
        J (streams ++ [s]) (ids ++ [s.id]) st1) :
    J (scanPart st now).1 (scanPart st now).2.1 (scanPart st now).2.2 := by
  have hm : J (method1 st now).1 (method1 st now).2.1 (method1 st now).2.2 := by
    rcases hg : getItem st Key.globalIdx with _ | v
    · simpa [method1, hg] using hstart
    · rcases v with s | l | l | _
      · simpa [method1, hg] using hstart
      · simp only [method1, hg]
        exact method1_fold_joint now J l hremS
          (fun streams ids st1 e he hJ hage => hremE streams ids st1 e l hg he hJ hage)
          (fun streams ids st1 e v he hJ h1 h2 h3 h4 h5 h6 =>
            hpushM streams ids st1 e v l hg he hJ h1 h2 h3 h4 h5 h6)
          l (fun e he => he) ([], [], st) hstart
      · simpa [method1, hg] using hstart
      · simpa [method1, hg] using hstart
  exact scanGo_joint now J hremS hpushS _ _ _ _ _ hm

theorem setItem_mem (st : Storage) (k : Key) (v : Value) :
    ∀ p ∈ setItem st k v, p = (k, v) ∨ p ∈ st := by
  induction st with
  | nil => simp [setItem]
  | cons q rest ih =>
      obtain ⟨k', v'⟩ := q
      by_cases h : k' = k
      · intro p hp
        simp only [setItem, if_pos h] at hp
        rcases List.mem_cons.mp hp with h1 | h1
        · exact Or.inl h1
        · exact Or.inr (List.mem_cons_of_mem _ h1)
      · intro p hp
        simp only [setItem, if_neg h] at hp
        rcases List.mem_cons.mp hp with h1 | h1
        · exact Or.inr (h1 ▸ List.mem_cons_self _ _)
        · rcases ih p h1 with h2 | h2
          · exact Or.inl h2
          · exact Or.inr (List.mem_cons_of_mem _ h2)

theorem removeItem_mem (st : Storage) (k : Key) :
    ∀ p ∈ removeItem st k, p ∈ st := fun _ hp => List.mem_of_mem_filter hp

theorem StOK_removeItem (P : Key → Value → Bool) (st : Storage) (k : Key)
    (h : StOK P st) : StOK P (removeItem st k) :=
  fun p hp => h p (removeItem_mem st k p hp)

theorem StOK_setItem (P : Key → Value → Bool) (st : Storage) (k : Key) (v : Value)
    (h : StOK P st) (hkv : P k v = true) : StOK P (setItem st k v) := by
  intro p hp
  rcases setItem_mem st k v p hp with h1 | h1
  · subst h1; exact hkv
  · exact h p h1

theorem StOK_getItem (P : Key → Value → Bool) (st : Storage) (k : Key) (v : Value)
    (h : StOK P st) (hv : getItem st k = some v) : P k v = true :=
  h (k, v) (getItem_mem st k v hv)

theorem WF_getItem (st : Storage) (i : String) (s : StreamData)
    (hwf : WF st) (h : getItem st (Key.stream i) = some (Value.streamVal s)) :
    s.id = i := by
  have := StOK_getItem WFpair st (Key.stream i) (Value.streamVal s) hwf h
  simpa [WFpair] using this

theorem IdxOK_getItem (st : Storage) (l : List StreamData) (e : StreamData)
    (hidx : IdxOK st = true)
    (hg : getItem st Key.globalIdx = some (Value.streamListVal l)) (he : e ∈ l) :
    getItem st (Key.stream e.id) = some (Value.streamVal e) := by
  unfold IdxOK at hidx
  rw [hg] at hidx
  have := List.all_eq_true.mp hidx e he
  simpa using this

/-- Both phases only ever remove individual-record keys, so a pairwise
predicate survives them. -/
theorem scanPart_StOK (P : Key → Value → Bool) (st : Storage) (now : Int)
    (h : StOK P st) : StOK P (scanPart st now).2.2 :=
  scanPart_joint st now (fun _ _ st1 => StOK P st1) h
    (fun _ _ st1 x _ hJ _ _ => StOK_removeItem P st1 (Key.stream x) hJ)
    (fun _ _ st1 e _ _ _ hJ _ => StOK_removeItem P st1 (Key.stream e.id) hJ)
    (fun _ _ _ _ _ _ _ _ hJ _ _ _ _ _ _ => hJ)
    (fun _ _ _ _ _ hJ _ _ _ _ _ => hJ)

theorem getAll_StOK (P : Key → Value → Bool) (st : Storage) (now : Int)
    (h : StOK P st)
    (hidxP : ∀ l, P Key.globalIdx (Value.streamListVal l) = true) :
    StOK P (getAllStreamsFromStorage st now).2 := by
  rw [getAllStreamsFromStorage_eq]
  exact StOK_setItem P _ _ _ (scanPart_StOK P st now h) (hidxP _)

/-- Keys other than individual-record keys are untouched by the two phases. -/
theorem scanPart_getItem_stable (st : Storage) (now : Int) (k : Key)
    (hk : ∀ x, k ≠ Key.stream x) :
    getItem (scanPart st now).2.2 k = getItem st k :=
  scanPart_joint st now (fun _ _ st1 => getItem st1 k = getItem st k) rfl
    (fun _ _ st1 x _ hJ _ _ => by
      show getItem (removeItem st1 (Key.stream x)) k = getItem st k
      rw [getItem_removeItem_ne st1 _ k (hk x)]
      exact hJ)
    (fun _ _ st1 e _ _ _ hJ _ => by
      show getItem (removeItem st1 (Key.stream e.id)) k = getItem st k
      rw [getItem_removeItem_ne st1 _ k (hk e.id)]
      exact hJ)
    (fun _ _ _ _ _ _ _ _ hJ _ _ _ _ _ _ => hJ)
    (fun _ _ _ _ _ hJ _ _ _ _ _ => hJ)

/-- `getAllStreamsFromStorage` never touches a chat transcript. -/
theorem getAll_getItem_chat (st : Storage) (now : Int) (c : String) :
    getItem (getAllStreamsFromStorage st now).2 (Key.chat c) = getItem st (Key.chat c) := by
  rw [getAllStreamsFromStorage_eq]
  rw [getItem_setItem_ne _ _ _ _ (by simp)]
  exact scanPart_getItem_stable st now (Key.chat c) (fun x => by simp)

/-- The rewritten global index is exactly the returned list. -/
theorem getAll_index (st : Storage) (now : Int) :
    getItem (getAllStreamsFromStorage st now).2 Key.globalIdx =
      some (Value.streamListVal (getAllStreamsFromStorage st now).1) := by
  rw [getAllStreamsFromStorage_eq]
  exact getItem_setItem_self _ _ _

/-- An individual-record key absent at the start of the call is still absent
after it, the call returns no record carrying its id, and `WF` survives. -/
theorem getAll_not_returned (st : Storage) (now : Int) (x : String)
    (hwf : WF st) (habs : getItem st (Key.stream x) = none) :
    (∀ r ∈ (getAllStreamsFromStorage st now).1, r.id ≠ x) ∧
    getItem (getAllStreamsFromStorage st now).2 (Key.stream x) = none ∧
    WF (getAllStreamsFromStorage st now).2 := by
  have hmain := scanPart_joint st now
    (fun streams _ st1 =>
      (∀ r ∈ streams, r.id ≠ x) ∧ getItem st1 (Key.stream x) = none ∧ WF st1)
    ⟨by simp, habs, hwf⟩
    (fun streams ids st1 y v hJ hv _ => by
      refine ⟨hJ.1, ?_, StOK_removeItem _ _ _ hJ.2.2⟩
      by_cases hxy : x = y
      · subst hxy; exact getItem_removeItem_self st1 _
      · rw [getItem_removeItem_ne st1 _ _ (by simpa using hxy)]; exact hJ.2.1)
    (fun streams ids st1 e _ _ _ hJ _ => by
      refine ⟨hJ.1, ?_, StOK_removeItem _ _ _ hJ.2.2⟩
      by_cases hxy : x = e.id
      · subst hxy; exact getItem_removeItem_self st1 _
      · rw [getItem_removeItem_ne st1 _ _ (by simpa using hxy)]; exact hJ.2.1)
    (fun streams ids st1 e v _ _ _ hJ _ _ _ _ hv _ => by
      refine ⟨?_, hJ.2.1, hJ.2.2⟩
      intro r hr
      rcases List.mem_append.mp hr with h1 | h1
      · exact hJ.1 r h1
      · have hrv : r = v := by simpa using h1
        subst hrv
        have hid : r.id = e.id := WF_getItem st1 e.id r hJ.2.2 hv
        intro hx
        rw [hid] at hx
        subst hx
        rw [hJ.2.1] at hv
        exact Option.noConfusion hv)
    (fun streams ids st1 y s hJ hv _ _ _ _ => by
      refine ⟨?_, hJ.2.1, hJ.2.2⟩
      intro r hr
      rcases List.mem_append.mp hr with h1 | h1
      · exact hJ.1 r h1
      · have hrv : r = s := by simpa using h1
        subst hrv
        have hid : r.id = y := WF_getItem st1 y r hJ.2.2 hv
        intro hx
        rw [hid] at hx
        subst hx
        rw [hJ.2.1] at hv
        exact Option.noConfusion hv)
  refine ⟨?_, ?_, ?_⟩
  · rw [getAllStreamsFromStorage_eq]
    intro r hr
    exact hmain.1 r (List.mem_of_mem_filter hr)
  · rw [getAllStreamsFromStorage_eq]
    rw [getItem_setItem_ne _ _ _ _ (by simp)]
    exact hmain.2.1
  · rw [getAllStreamsFromStorage_eq]
    exact StOK_setItem _ _ _ _ hmain.2.2 (by simp [WFpair])

/-- On a well-filed state whose index entries agree with their records, every
record returned by `getAllStreamsFromStorage` is live, younger than `maxAge`,
and still stored verbatim under its own key after the call. -/
theorem getAll_mem_record (st : Storage) (now : Int)
    (hwf : WF st) (hidx : IdxOK st = true) :
    ∀ s ∈ (getAllStreamsFromStorage st now).1,
      s.isLive = true ∧ now - s.startTime < maxAge ∧
      getItem (getAllStreamsFromStorage st now).2 (Key.stream s.id) =
        some (Value.streamVal s) := by
  have hmain := scanPart_joint st now
    (fun streams _ st1 =>
      (∀ s ∈ streams, s.isLive = true ∧ now - s.startTime < maxAge ∧
        getItem st1 (Key.stream s.id) = some (Value.streamVal s)) ∧ WF st1 ∧
      (∀ k v, getItem st1 k = some v → getItem st k = some v))
    ⟨by simp, hwf, fun k v hv => hv⟩
    (fun streams ids st1 y v hJ hv hdead => by
      refine ⟨?_, StOK_removeItem _ _ _ hJ.2.1, ?_⟩
      · intro s hs
        obtain ⟨h1, h2, h3⟩ := hJ.1 s hs
        have hne : s.id ≠ y := by
          intro hxy
          rw [hxy, hv] at h3
          injection h3 with hveq
          rcases hdead s hveq with h4 | h4
          · rw [h1] at h4; exact Bool.noConfusion h4
          · omega
        exact ⟨h1, h2, by rw [getItem_removeItem_ne st1 _ _ (by simpa using hne)]; exact h3⟩
      · intro k v2 hk2
        by_cases hky : k = Key.stream y
        · rw [hky, getItem_removeItem_self] at hk2
          exact Option.noConfusion hk2
        · rw [getItem_removeItem_ne st1 _ _ hky] at hk2
          exact hJ.2.2 k v2 hk2)
    (fun streams ids st1 e l0 hg he hJ hage => by
      refine ⟨?_, StOK_removeItem _ _ _ hJ.2.1, ?_⟩
      · intro s hs
        obtain ⟨h1, h2, h3⟩ := hJ.1 s hs
        have hne : s.id ≠ e.id := by
          intro hxy
          rw [hxy] at h3
          have h4 := hJ.2.2 _ _ h3
          have h5 := IdxOK_getItem st l0 e hidx hg he
          rw [h4] at h5
          have h6 : s = e := Value.streamVal.inj (Option.some.inj h5)
          rw [h6] at h2
          omega
        exact ⟨h1, h2, by rw [getItem_removeItem_ne st1 _ _ (by simpa using hne)]; exact h3⟩
      · intro k v2 hk2
        by_cases hky : k = Key.stream e.id
        · rw [hky, getItem_removeItem_self] at hk2
          exact Option.noConfusion hk2
        · rw [getItem_removeItem_ne st1 _ _ hky] at hk2
          exact hJ.2.2 k v2 hk2)
    (fun streams ids st1 e v l0 hg he hJ h1 h2 h3 h4 hv hvl => by
      refine ⟨?_, hJ.2.1, hJ.2.2⟩
      intro s hs
      rcases List.mem_append.mp hs with hs1 | hs1
      · exact hJ.1 s hs1
      · have hsv : s = v := by simpa using hs1
        subst hsv
        have hvid : s.id = e.id := WF_getItem st1 e.id s hJ.2.1 hv
        have h5 := hJ.2.2 _ _ hv
        have h6 := IdxOK_getItem st l0 e hidx hg he
        rw [h5] at h6
        have h7 : s = e := Value.streamVal.inj (Option.some.inj h6)
        refine ⟨hvl, ?_, by rw [hvid]; exact hv⟩
        rw [h7]
        exact h4)
    (fun streams ids st1 y s hJ hv hlive hid hnotin hfresh => by
      refine ⟨?_, hJ.2.1, hJ.2.2⟩
      intro r hr
      rcases List.mem_append.mp hr with hr1 | hr1
      · exact hJ.1 r hr1
      · have hrs : r = s := by simpa using hr1
        subst hrs
        have hrid : r.id = y := WF_getItem st1 y r hJ.2.1 hv
        exact ⟨hlive, hfresh, by rw [hrid]; exact hv⟩)
  intro s hs
  rw [getAllStreamsFromStorage_eq] at hs
  have hs2 : s ∈ (scanPart st now).1 := List.mem_of_mem_filter hs
  obtain ⟨h1, h2, h3⟩ := hmain.1 s hs2
  refine ⟨h1, h2, ?_⟩
  rw [getAllStreamsFromStorage_eq]
  rw [getItem_setItem_ne _ _ _ _ (by simp)]
  exact h3

/-- Viewer-count non-negativity survives a reconciliation pass, and every
returned record has a non-negative count. -/
theorem getAll_counts (st : Storage) (now : Int) (h : countsOK st) :
    countsOK (getAllStreamsFromStorage st now).2 ∧
    ∀ s ∈ (getAllStreamsFromStorage st now).1, 0 ≤ s.viewerCount := by
  have hmain := scanPart_joint st now
    (fun streams _ st1 => (∀ s ∈ streams, 0 ≤ s.viewerCount) ∧ countsOK st1)
    ⟨by simp, h⟩
    (fun _ _ st1 x _ hJ _ _ => ⟨hJ.1, StOK_removeItem _ _ _ hJ.2⟩)
    (fun _ _ st1 e _ _ _ hJ _ => ⟨hJ.1, StOK_removeItem _ _ _ hJ.2⟩)
    (fun streams ids st1 e v _ _ _ hJ _ _ _ _ hv _ => by
      refine ⟨?_, hJ.2⟩
      intro s hs
      rcases List.mem_append.mp hs with hs1 | hs1
      · exact hJ.1 s hs1
      · have hsv : s = v := by simpa using hs1
        subst hsv
        have := StOK_getItem countsPair st1 _ _ hJ.2 hv
        simpa [countsPair] using this)
    (fun streams ids st1 y s hJ hv _ _ _ _ => by
      refine ⟨?_, hJ.2⟩
      intro r hr
      rcases List.mem_append.mp hr with hr1 | hr1
      · exact hJ.1 r hr1
      · have hrs : r = s := by simpa using hr1
        subst hrs
        have := StOK_getItem countsPair st1 _ _ hJ.2 hv
        simpa [countsPair] using this)
  constructor
  · rw [getAllStreamsFromStorage_eq]
    refine StOK_setItem _ _ _ _ hmain.2 ?_
    simp only [countsPair, List.all_eq_true]
    intro e he
    simp only [decide_eq_true_eq]
    exact hmain.1 e (List.mem_of_mem_filter he)
  · intro s hs
    rw [getAllStreamsFromStorage_eq] at hs
    exact hmain.1 s (List.mem_of_mem_filter hs)

/-!
### Write-path preservation lemmas
-/

theorem WF_storeStream (st : Storage) (s : StreamData) (h : WF st) :
    WF (storeStream st s) := by
  simp only [storeStream]
  exact StOK_setItem _ _ _ _ (StOK_setItem _ _ _ _ h (by simp [WFpair])) rfl

theorem WF_updateStream (st : Storage) (i : String) (u : StreamUpdate) (now : Int)
    (h : WF st) : WF (updateStream st i u now).2 := by
  rcases hr : getItem st (Key.stream i) with _ | v
  · simp only [updateStream, hr]
    exact h
  · rcases v with s | l | l | _
    · simp only [updateStream, hr]
      exact WF_storeStream _ _ h
    · simp only [updateStream, hr]
      exact h
    · simp only [updateStream, hr]
      exact h
    · simp only [updateStream, hr]
      exact h

/-- `endStream` leaves a well-filed state in which both the individual record
and the chat transcript of the ended id are absent. -/
theorem endStream_purges (st : Storage) (streamId : String) (now : Int) (hwf : WF st) :
    WF (endStream st streamId now) ∧
    getItem (endStream st streamId now) (Key.stream streamId) = none ∧
    getItem (endStream st streamId now) (Key.chat streamId) = none := by
  have hwf1 : WF (updateStream st streamId { noUpdate with isLive := some false } now).2 :=
    WF_updateStream st streamId _ now hwf
  simp only [endStream]
  rcases hg : getItem (updateStream st streamId { noUpdate with isLive := some false } now).2
      Key.globalIdx with _ | v
  · simp only [hg]
    refine ⟨StOK_removeItem _ _ _ (StOK_removeItem _ _ _ hwf1), ?_, ?_⟩
    · rw [getItem_removeItem_ne _ _ _ (by simp), getItem_removeItem_self]
    · rw [getItem_removeItem_self]
  · rcases v with s | l | l | _
    · simp only [hg]
      refine ⟨StOK_removeItem _ _ _ (StOK_removeItem _ _ _ hwf1), ?_, ?_⟩
      · rw [getItem_removeItem_ne _ _ _ (by simp), getItem_removeItem_self]
      · rw [getItem_removeItem_self]
    · simp only [hg]
      refine ⟨StOK_removeItem _ _ _ (StOK_removeItem _ _ _
          (StOK_setItem _ _ _ _ hwf1 rfl)), ?_, ?_⟩
      · rw [getItem_removeItem_ne _ _ _ (by simp), getItem_removeItem_self]
      · rw [getItem_removeItem_self]
    · simp only [hg]
      refine ⟨StOK_removeItem _ _ _ (StOK_removeItem _ _ _ hwf1), ?_, ?_⟩
      · rw [getItem_removeItem_ne _ _ _ (by simp), getItem_removeItem_self]
      · rw [getItem_removeItem_self]
    · simp only [hg]
      refine ⟨StOK_removeItem _ _ _ (StOK_removeItem _ _ _ hwf1), ?_, ?_⟩
      · rw [getItem_removeItem_ne _ _ _ (by simp), getItem_removeItem_self]
      · rw [getItem_removeItem_self]

/-- Reconciliation passes preserve well-filedness and the absence of a purged
id's record and transcript. -/
theorem iterGetAll_purged (x : String) :
    ∀ (ts : List Int) (st : Storage), WF st →
      getItem st (Key.stream x) = none → getItem st (Key.chat x) = none →
      WF (iterGetAll st ts) ∧ getItem (iterGetAll st ts) (Key.stream x) = none ∧
      getItem (iterGetAll st ts) (Key.chat x) = none := by
  intro ts
  induction ts with
  | nil => intro st h1 h2 h3; exact ⟨h1, h2, h3⟩
  | cons t rest ih =>
      intro st h1 h2 h3
      simp only [iterGetAll]
      have hno := getAll_not_returned st t x h1 h2
      exact ih _ hno.2.2 hno.2.1 (by rw [getAll_getItem_chat]; exact h3)

theorem filter_idem (p : α → Bool) (l : List α) :
    (l.filter p).filter p = l.filter p := by
  induction l with
  | nil => rfl
  | cons a rest ih =>
      by_cases h : p a = true
      · simp [List.filter_cons, h, ih]
      · simp [List.filter_cons, h, ih]

theorem WS_stream_cases (st : Storage) (i : String) (hws : WS st) :
    getItem st (Key.stream i) = none ∨
    (∃ s, getItem st (Key.stream i) = some (Value.streamVal s)) ∨
    getItem st (Key.stream i) = some Value.corruptVal := by
  rcases h : getItem st (Key.stream i) with _ | v
  · exact Or.inl rfl
  · rcases v with s | l | l | _
    · exact Or.inr (Or.inl ⟨s, rfl⟩)
    · have := StOK_getItem WSpair st _ _ hws h
      simp [WSpair] at this
    · have := StOK_getItem WSpair st _ _ hws h
      simp [WSpair] at this
    · exact Or.inr (Or.inr rfl)

theorem WS_global_cases (st : Storage) (hws : WS st) :
    getItem st Key.globalIdx = none ∨
    (∃ l, getItem st Key.globalIdx = some (Value.streamListVal l)) ∨
    getItem st Key.globalIdx = some Value.corruptVal := by
  rcases h : getItem st Key.globalIdx with _ | v
  · exact Or.inl rfl
  · rcases v with s | l | l | _
    · have := StOK_getItem WSpair st _ _ hws h
      simp [WSpair] at this
    · exact Or.inr (Or.inl ⟨l, rfl⟩)
    · have := StOK_getItem WSpair st _ _ hws h
      simp [WSpair] at this
    · exact Or.inr (Or.inr rfl)

/-- On well-shaped, well-filed states whose global index parses (or whose
individual record for the id is absent or corrupt), a foreign `streamEnded`
(`removeStreamFromBroadcast`) leaves exactly the storage a local
`endStream` would: both remove the record and transcript and filter the id
out of a parseable index.  (Outside these states they differ: see the C4
counterexample.) -/
theorem removeBroadcast_eq_endStream (st : Storage) (streamId : String) (now : Int)
    (hws : WS st) (hwf : WF st)
    (hdisj : (∃ l, getItem st Key.globalIdx = some (Value.streamListVal l)) ∨
      getItem st (Key.stream streamId) = none ∨
      getItem st (Key.stream streamId) = some Value.corruptVal) :
    removeStreamFromBroadcast st streamId = endStream st streamId now := by
  rcases WS_stream_cases st streamId hws with hr | ⟨s, hr⟩ | hr
  · rcases WS_global_cases st hws with hg | ⟨l, hg⟩ | hg
    · have hg2 : getItem (removeItem (removeItem st (Key.stream streamId))
          (Key.chat streamId)) Key.globalIdx = none := by
        rw [getItem_removeItem_ne _ _ _ (by simp), getItem_removeItem_ne _ _ _ (by simp)]
        exact hg
      simp only [removeStreamFromBroadcast, endStream, updateStream, hr, hg, hg2]
    · have hg2 : getItem (removeItem (removeItem st (Key.stream streamId))
          (Key.chat streamId)) Key.globalIdx = some (Value.streamListVal l) := by
        rw [getItem_removeItem_ne _ _ _ (by simp), getItem_removeItem_ne _ _ _ (by simp)]
        exact hg
      simp only [removeStreamFromBroadcast, endStream, updateStream, hr, hg, hg2]
      rw [removeItem_setItem_ne _ _ _ _ (by simp), removeItem_setItem_ne _ _ _ _ (by simp)]
    · have hg2 : getItem (removeItem (removeItem st (Key.stream streamId))
          (Key.chat streamId)) Key.globalIdx = some Value.corruptVal := by
        rw [getItem_removeItem_ne _ _ _ (by simp), getItem_removeItem_ne _ _ _ (by simp)]
        exact hg
      simp only [removeStreamFromBroadcast, endStream, updateStream, hr, hg, hg2]
  · obtain ⟨l, hg⟩ : ∃ l, getItem st Key.globalIdx = some (Value.streamListVal l) := by
      rcases hdisj with h | h | h
      · exact h
      · rw [hr] at h
        exact absurd h (by simp)
      · rw [hr] at h
        simp at h
    have hsid : s.id = streamId := WF_getItem st streamId s hwf hr
    obtain ⟨s2, hs2id, hs2live, hs2eq⟩ :
        ∃ s2 : StreamData, s2.id = streamId ∧ s2.isLive = false ∧
          (updateStream st streamId { noUpdate with isLive := some false } now).2 =
            storeStream st s2 := by
      refine ⟨{ applyUpdate s { noUpdate with isLive := some false } with
        lastUpdate := now }, ?_, ?_, ?_⟩
      · simp [applyUpdate, noUpdate, hsid]
      · simp [applyUpdate, noUpdate]
      · simp only [updateStream, hr]
    have hscrut : getItem (setItem st (Key.stream streamId) (Value.streamVal s2))
        Key.globalIdx = some (Value.streamListVal l) := by
      rw [getItem_setItem_ne _ _ _ _ (by simp)]
      exact hg
    have hstore : storeStream st s2 =
        setItem (setItem st (Key.stream streamId) (Value.streamVal s2)) Key.globalIdx
          (Value.streamListVal (l.filter (fun e => decide (e.id ≠ streamId)))) := by
      simp only [storeStream, hs2id, hscrut, hs2live, Bool.false_eq_true, if_false]
    have hb : removeStreamFromBroadcast st streamId =
        setItem (removeItem (removeItem st (Key.stream streamId)) (Key.chat streamId))
          Key.globalIdx
          (Value.streamListVal (l.filter (fun e => decide (e.id ≠ streamId)))) := by
      have hg2 : getItem (removeItem (removeItem st (Key.stream streamId))
          (Key.chat streamId)) Key.globalIdx = some (Value.streamListVal l) := by
        rw [getItem_removeItem_ne _ _ _ (by simp), getItem_removeItem_ne _ _ _ (by simp)]
        exact hg
      simp only [removeStreamFromBroadcast, hg2]
    have he : endStream st streamId now =
        setItem (removeItem (removeItem st (Key.stream streamId)) (Key.chat streamId))
          Key.globalIdx
          (Value.streamListVal (l.filter (fun e => decide (e.id ≠ streamId)))) := by
      simp only [endStream, hs2eq, hstore, getItem_setItem_self]
      rw [filter_idem, setItem_setItem_same,
        removeItem_setItem_ne _ _ _ _ (by simp), removeItem_setItem_self,
        removeItem_setItem_ne _ _ _ _ (by simp)]
    rw [hb, he]
  · rcases WS_global_cases st hws with hg | ⟨l, hg⟩ | hg
    · have hg2 : getItem (removeItem (removeItem st (Key.stream streamId))
          (Key.chat streamId)) Key.globalIdx = none := by
        rw [getItem_removeItem_ne _ _ _ (by simp), getItem_removeItem_ne _ _ _ (by simp)]
        exact hg
      simp only [removeStreamFromBroadcast, endStream, updateStream, hr, hg, hg2]
    · have hg2 : getItem (removeItem (removeItem st (Key.stream streamId))
          (Key.chat streamId)) Key.globalIdx = some (Value.streamListVal l) := by
        rw [getItem_removeItem_ne _ _ _ (by simp), getItem_removeItem_ne _ _ _ (by simp)]
        exact hg
      simp only [removeStreamFromBroadcast, endStream, updateStream, hr, hg, hg2]
      rw [removeItem_setItem_ne _ _ _ _ (by simp), removeItem_setItem_ne _ _ _ _ (by simp)]
    · have hg2 : getItem (removeItem (removeItem st (Key.stream streamId))
          (Key.chat streamId)) Key.globalIdx = some Value.corruptVal := by
        rw [getItem_removeItem_ne _ _ _ (by simp), getItem_removeItem_ne _ _ _ (by simp)]
        exact hg
      simp only [removeStreamFromBroadcast, endStream, updateStream, hr, hg, hg2]

/-!
### The claims
-/

/-- C1, counterexample.  In `stC1` at `now = 90000000`, the stored record
`recA` is live but 25 hours old and is nevertheless returned (its global-index
entry `entryA` carries a fresh `startTime`, and the age test of phase 1 reads
the entry, not the record), while `recB` is live, fresh and stored but not
returned (scanning slot 1 deletes the stale record `a`, which shifts `b` into
the already-visited slot 1, and `b` has no index entry).  So membership in
`getAllActiveStreams()` is equivalent neither to `isLive ∧ age < 24h`
direction by direction. -/
theorem C1_counterexample :
    getItem stC1 (Key.stream "a") = some (Value.streamVal recA) ∧
    recA.isLive = true ∧ ¬((90000000 : Int) - recA.startTime < maxAge) ∧
    recA ∈ (getAllActiveStreams stC1 90000000).1 ∧
    getItem stC1 (Key.stream "b") = some (Value.streamVal recB) ∧
    recB.isLive = true ∧ (90000000 : Int) - recB.startTime < maxAge ∧
    recB ∉ (getAllActiveStreams stC1 90000000).1 := by decide

/-- C1, amended: every record returned by `getAllActiveStreams()` has
`isLive = true` (the final filter of `getAllStreamsFromStorage`); the
24-hour bound on returned records and the converse inclusion do not hold. -/
theorem C1_amended (st : Storage) (now : Int) :
    ∀ r ∈ (getAllActiveStreams st now).1, r.isLive = true := by
  intro r hr
  simp only [getAllActiveStreams, getAllStreamsFromStorage_eq] at hr
  simpa using (List.mem_filter.mp hr).2

theorem C1_amended_witness : recA.isLive = true :=
  C1_amended stC1 90000000 recA (by decide)

/-- C2: after `endStream(id)`, any number of reconciliation passes later,
`getAllActiveStreams()` returns no record with that id and
`getChatMessages(id)` is empty.  The hypothesis `WF st` (each stored record is
filed under its own id) is maintained by every registry write. -/
theorem C2_end_is_terminal (st : Storage) (streamId : String) (now : Int)
    (hwf : WF st) (ts : List Int) (t : Int) :
    (∀ r ∈ (getAllActiveStreams (iterGetAll (endStream st streamId now) ts) t).1,
      r.id ≠ streamId) ∧
    getChatMessages (iterGetAll (endStream st streamId now) ts) streamId = [] := by
  obtain ⟨h1, h2, h3⟩ := endStream_purges st streamId now hwf
  obtain ⟨g1, g2, g3⟩ := iterGetAll_purged streamId ts _ h1 h2 h3
  refine ⟨?_, ?_⟩
  · simp only [getAllActiveStreams]
    exact (getAll_not_returned _ t _ g1 g2).1
  · simp only [getChatMessages, g3]

theorem C2_witness :
    (∀ r ∈ (getAllActiveStreams (iterGetAll (endStream stC2 "a" 5) [7]) 9).1,
      r.id ≠ "a") ∧
    getChatMessages (iterGetAll (endStream stC2 "a" 5) [7]) "a" = [] :=
  C2_end_is_terminal stC2 "a" 5 (by decide) [7] 9

/-- C3, counterexample.  `updateStream` on a record that fails JSON decoding
catches the error and returns `false` with storage untouched: the offending
key is not deleted, contradicting the claim that every reading operation
deletes it. -/
theorem C3_counterexample :
    updateStream stCorruptRec "a" noUpdate 0 = (false, stCorruptRec) ∧
    getItem (updateStream stCorruptRec "a" noUpdate 0).2 (Key.stream "a") =
      some Value.corruptVal := by decide

/-- C3, amended: a corrupt value is treated as absent from the caller's view
(`updateStream` fails as on a missing record with storage unchanged,
`getChatMessages` returns `[]`), but the key itself is deleted only when an
individual-record key is encountered by a `getAllActiveStreams` scan, not by
`updateStream` or `getChatMessages`. -/
theorem C3_amended :
    (∀ (st : Storage) (i : String) (u : StreamUpdate) (now : Int),
      getItem st (Key.stream i) = some Value.corruptVal →
      updateStream st i u now = (false, st)) ∧
    (∀ (st : Storage) (i : String),
      getItem st (Key.chat i) = some Value.corruptVal → getChatMessages st i = []) ∧
    getItem (getAllActiveStreams stCorruptRec 0).2 (Key.stream "a") = none := by
  refine ⟨?_, ?_, by decide⟩
  · intro st i u now h
    simp only [updateStream, h]
  · intro st i h
    simp only [getChatMessages, h]

theorem C3_amended_witness :
    updateStream stCorruptRec "a" noUpdate 0 = (false, stCorruptRec) ∧
    getChatMessages stCorruptChat "c" = [] :=
  ⟨C3_amended.1 stCorruptRec "a" noUpdate 0 (by decide),
   C3_amended.2.1 stCorruptChat "c" (by decide)⟩

/-- C5: an id in the global index with no individual record is neither
returned nor kept in the rewritten index (which is rewritten to exactly the
returned list).  `WF st` as in C2. -/
theorem C5_index_self_healing (st : Storage) (now : Int) (x : String)
    (hwf : WF st) (habs : getItem st (Key.stream x) = none) :
    (∀ r ∈ (getAllActiveStreams st now).1, r.id ≠ x) ∧
    getItem (getAllActiveStreams st now).2 Key.globalIdx =
      some (Value.streamListVal (getAllActiveStreams st now).1) ∧
    ∀ e ∈ (getAllActiveStreams st now).1, e.id ≠ x := by
  have h := getAll_not_returned st now x hwf habs
  simp only [getAllActiveStreams] at h ⊢
  exact ⟨h.1, getAll_index st now, h.1⟩

theorem C5_witness :
    (∀ r ∈ (getAllActiveStreams stC5 0).1, r.id ≠ "a") ∧
    getItem (getAllActiveStreams stC5 0).2 Key.globalIdx =
      some (Value.streamListVal (getAllActiveStreams stC5 0).1) ∧
    ∀ e ∈ (getAllActiveStreams stC5 0).1, e.id ≠ "a" :=
  C5_index_self_healing stC5 0 "a" (by decide) (by decide)

/-- C6, counterexample.  `joinStream` on an id with no active stream returns
`false` but does not leave storage unchanged: the embedded
`getAllActiveStreams()` lookup rewrites the global index (here it creates the
index key in an empty storage). -/
theorem C6_counterexample :
    (joinStream [] "s" "V" none "m" 0).1 = false ∧
    (joinStream [] "s" "V" none "m" 0).2 ≠ [] := by decide

/-- C6, amended: when the lookup misses, `joinStream` and `leaveStream`
return `false` and perform no mutation of their own — the final storage is
exactly the output of the embedded `getAllActiveStreams()` reconciliation
pass (no viewer-count change, no chat append, no record created). -/
theorem C6_failure_no_op (st : Storage) (streamId viewerName : String)
    (viewerAddress : Option String) (joinMsgId leaveMsgId : String) (now : Int)
    (h : (getAllActiveStreams st now).1.find? (fun s => s.id == streamId) = none) :
    joinStream st streamId viewerName viewerAddress joinMsgId now =
      (false, (getAllActiveStreams st now).2) ∧
    leaveStream st streamId viewerName leaveMsgId now =
      (false, (getAllActiveStreams st now).2) := by
  constructor
  · simp only [joinStream, h]
  · simp only [leaveStream, h]

theorem C6_witness :
    joinStream [] "s" "V" none "m" 0 = (false, (getAllActiveStreams [] 0).2) ∧
    leaveStream [] "s" "V" "m2" 0 = (false, (getAllActiveStreams [] 0).2) :=
  C6_failure_no_op [] "s" "V" none "m" "m2" 0 (by decide)

/-- C4, counterexample.  With a stored live record and no global index key,
a foreign `streamEnded` (`removeStreamFromBroadcast`) leaves an empty
storage, while a local `endStream` leaves `pandapi_global_streams := []`
(its `updateStream` step resets the missing index before the record is
deleted), so the two storage mutations are not the same. -/
theorem C4_counterexample :
    removeStreamFromBroadcast stC4 "a" ≠ endStream stC4 "a" 0 ∧
    removeStreamFromBroadcast stC4 "a" = [] ∧
    endStream stC4 "a" 0 = [(Key.globalIdx, Value.streamListVal [])] := by decide

/-- C4, amended: a foreign `streamCreated` applies exactly the local persist
(`storeStream`) when the carried stream is live, has a nonempty id and is not
already stored, and is a no-op otherwise; a foreign `streamEnded` applies
exactly the local `endStream` mutation on well-shaped, well-filed states
whose global index key holds a parseable list (or whose record for the id is
absent or corrupt) — when the record exists but the index key is absent or
corrupt, `endStream` additionally rewrites the index and the two differ. -/
theorem C4_broadcast_refinement :
    (∀ (st : Storage) (s : StreamData),
      s.isLive = true → s.id ≠ "" → getItem st (Key.stream s.id) = none →
      storeStreamFromBroadcast st s = storeStream st s) ∧
    (∀ (st : Storage) (s : StreamData),
      ¬(s.isLive = true ∧ s.id ≠ "" ∧ getItem st (Key.stream s.id) = none) →
      storeStreamFromBroadcast st s = st) ∧
    (∀ (st : Storage) (streamId : String) (now : Int), WS st → WF st →
      ((∃ l, getItem st Key.globalIdx = some (Value.streamListVal l)) ∨
        getItem st (Key.stream streamId) = none ∨
        getItem st (Key.stream streamId) = some Value.corruptVal) →
      removeStreamFromBroadcast st streamId = endStream st streamId now) := by
  refine ⟨?_, ?_, ?_⟩
  · intro st s h1 h2 h3
    simp only [storeStreamFromBroadcast, if_pos (And.intro h1 h2), h3]
  · intro st s h
    by_cases h1 : s.isLive = true ∧ s.id ≠ ""
    · rcases hr : getItem st (Key.stream s.id) with _ | v
      · exact absurd ⟨h1.1, h1.2, hr⟩ h
      · simp only [storeStreamFromBroadcast, if_pos h1, hr]
    · simp only [storeStreamFromBroadcast, if_neg h1]
  · intro st streamId now hws hwf hdisj
    exact removeBroadcast_eq_endStream st streamId now hws hwf hdisj

theorem C4_witness :
    storeStreamFromBroadcast [] recB = storeStream [] recB ∧
    storeStreamFromBroadcast stC4 recA = stC4 ∧
    removeStreamFromBroadcast [(Key.globalIdx, Value.streamListVal [])] "a" =
      endStream [(Key.globalIdx, Value.streamListVal [])] "a" 0 :=
  ⟨C4_broadcast_refinement.1 [] recB (by decide) (by decide) (by decide),
   C4_broadcast_refinement.2.1 stC4 recA (by decide),
   C4_broadcast_refinement.2.2 [(Key.globalIdx, Value.streamListVal [])] "a" 0
     (by decide) (by decide) (Or.inl ⟨[], by decide⟩)⟩

/-!
### Transcript-cap lemmas (C7, C10)
-/

theorem lastN_length_le (n : Nat) (l : List α) : (lastN n l).length ≤ n := by
  simp only [lastN, List.length_drop]
  omega

theorem lastN_of_length_le (n : Nat) (l : List α) (h : l.length ≤ n) :
    lastN n l = l := by
  simp [lastN, Nat.sub_eq_zero_of_le h]

theorem lastN_append_lastN (n : Nat) (xs ys : List α) :
    lastN n (lastN n xs ++ ys) = lastN n (xs ++ ys) := by
  by_cases h : xs.length ≤ n
  · rw [lastN_of_length_le n xs h]
  · unfold lastN
    rw [List.length_append, List.length_append, List.length_drop]
    rw [show xs.length - (xs.length - n) + ys.length - n = ys.length from by omega,
      show xs.length + ys.length - n = (xs.length - n) + ys.length from by omega,
      ← List.drop_drop, List.drop_append_of_le_length (Nat.sub_le _ _)]

theorem self_mem_lastN_append (n : Nat) (hn : 0 < n) (l : List α) (m : α) :
    m ∈ lastN n (l ++ [m]) := by
  unfold lastN
  rw [List.length_append, List.length_singleton]
  by_cases h : l.length + 1 ≤ n
  · rw [Nat.sub_eq_zero_of_le h]
    simp
  · rw [List.drop_append_of_le_length (by omega)]
    simp

theorem getChat_setItem_self (st : Storage) (i : String) (l : List ChatMessage) :
    getChatMessages (setItem st (Key.chat i) (Value.chatListVal l)) i = l := by
  simp [getChatMessages, getItem_setItem_self]

theorem getChat_sendMessage (st : Storage) (streamId : String) (m : MsgIn) :
    getChatMessages
      (sendMessage st streamId m.sender m.message m.senderAddress m.msgId m.now).2
      streamId =
    lastN 100 (getChatMessages st streamId ++ [mkMsg streamId m]) := by
  simp only [sendMessage, mkMsg]
  exact getChat_setItem_self _ _ _

theorem getChat_sendMany (streamId : String) :
    ∀ (ms : List MsgIn) (st : Storage), (getChatMessages st streamId).length ≤ 100 →
      getChatMessages (sendMany st streamId ms) streamId =
        lastN 100 (getChatMessages st streamId ++ ms.map (mkMsg streamId)) := by
  intro ms
  induction ms with
  | nil =>
      intro st h
      simp only [sendMany, List.foldl_nil, List.map_nil, List.append_nil]
      exact (lastN_of_length_le _ _ h).symm
  | cons m rest ih =>
      intro st h
      have hstep : sendMany st streamId (m :: rest) =
          sendMany (sendMessage st streamId m.sender m.message m.senderAddress
            m.msgId m.now).2 streamId rest := rfl
      rw [hstep]
      have hsent := getChat_sendMessage st streamId m
      have hlen : (getChatMessages (sendMessage st streamId m.sender m.message
          m.senderAddress m.msgId m.now).2 streamId).length ≤ 100 := by
        rw [hsent]
        exact lastN_length_le _ _
      rw [ih _ hlen, hsent, lastN_append_lastN, List.map_cons]
      simp [List.append_assoc]

theorem capOK_storeStream (st : Storage) (s : StreamData) (h : capOK st) :
    capOK (storeStream st s) := by
  simp only [storeStream]
  exact StOK_setItem _ _ _ _ (StOK_setItem _ _ _ _ h rfl) rfl

theorem capOK_updateStream (st : Storage) (i : String) (u : StreamUpdate) (now : Int)
    (h : capOK st) : capOK (updateStream st i u now).2 := by
  rcases hr : getItem st (Key.stream i) with _ | v
  · simp only [updateStream, hr]
    exact h
  · rcases v with s | l | l | _
    · simp only [updateStream, hr]
      exact capOK_storeStream _ _ h
    · simp only [updateStream, hr]
      exact h
    · simp only [updateStream, hr]
      exact h
    · simp only [updateStream, hr]
      exact h

theorem capOK_getAll (st : Storage) (now : Int) (h : capOK st) :
    capOK (getAllStreamsFromStorage st now).2 :=
  getAll_StOK capPair st now h (fun _ => rfl)

theorem capOK_sendMessage (st : Storage) (streamId sender message : String)
    (sa : Option String) (mid : String) (t : Int) (h : capOK st) :
    capOK (sendMessage st streamId sender message sa mid t).2 := by
  simp only [sendMessage]
  refine StOK_setItem _ _ _ _ h ?_
  simp only [capPair, decide_eq_true_eq]
  exact lastN_length_le _ _

theorem capOK_joinStream (st : Storage) (streamId vn : String) (va : Option String)
    (mid : String) (t : Int) (h : capOK st) :
    capOK (joinStream st streamId vn va mid t).2 := by
  have hg : capOK (getAllActiveStreams st t).2 := capOK_getAll st t h
  rcases hf : (getAllActiveStreams st t).1.find? (fun s => s.id == streamId) with _ | r
  · simp only [joinStream, hf]
    exact hg
  · simp only [joinStream, hf]
    refine StOK_setItem _ _ _ _ (capOK_updateStream _ _ _ _ hg) ?_
    simp only [capPair, decide_eq_true_eq]
    exact lastN_length_le _ _

theorem capOK_leaveStream (st : Storage) (streamId vn : String)
    (mid : String) (t : Int) (h : capOK st) :
    capOK (leaveStream st streamId vn mid t).2 := by
  have hg : capOK (getAllActiveStreams st t).2 := capOK_getAll st t h
  rcases hf : (getAllActiveStreams st t).1.find? (fun s => s.id == streamId) with _ | r
  · simp only [leaveStream, hf]
    exact hg
  · simp only [leaveStream, hf]
    refine StOK_setItem _ _ _ _ (capOK_updateStream _ _ _ _ hg) ?_
    simp only [capPair, decide_eq_true_eq]
    exact lastN_length_le _ _

theorem capOK_applyOps :
    ∀ (ops : List RegistryOp) (st : Storage), capOK st → capOK (applyOps st ops) := by
  intro ops
  induction ops with
  | nil => intro st h; exact h
  | cons op rest ih =>
      intro st h
      have h1 : capOK (applyOp st op) := by
        cases op with
        | send streamId m => exact capOK_sendMessage _ _ _ _ _ _ _ h
        | join streamId vn va mid t => exact capOK_joinStream _ _ _ _ _ _ h
        | leave streamId vn mid t => exact capOK_leaveStream _ _ _ _ _ h
      exact ih _ h1

/-- C7: every chat-writing operation truncates the transcript it writes to the
most recent 100 entries, the 100-bound on all stored transcripts is preserved
by any sequence of `sendMessage` / `joinStream` / `leaveStream`, and sending
150 messages to one stream whose transcript starts absent leaves exactly the
most recent 100 retrievable via `getChatMessages` (the first 50 dropped). -/
theorem C7_transcript_cap :
    (∀ (st : Storage) (ops : List RegistryOp), capOK st → capOK (applyOps st ops)) ∧
    (∀ (st : Storage) (streamId : String) (ms : List MsgIn),
      getItem st (Key.chat streamId) = none → ms.length = 150 →
      getChatMessages (sendMany st streamId ms) streamId =
        (ms.map (mkMsg streamId)).drop 50 ∧
      (getChatMessages (sendMany st streamId ms) streamId).length = 100) := by
  constructor
  · intro st ops h
    exact capOK_applyOps ops st h
  · intro st streamId ms h0 h150
    have hc : getChatMessages st streamId = [] := by simp [getChatMessages, h0]
    have hall := getChat_sendMany streamId ms st (by rw [hc]; simp)
    rw [hc, List.nil_append] at hall
    have hmap : (ms.map (mkMsg streamId)).length = 150 := by simp [h150]
    have hdrop : lastN 100 (ms.map (mkMsg streamId)) =
        (ms.map (mkMsg streamId)).drop 50 := by
      unfold lastN
      rw [hmap]
    refine ⟨by rw [hall, hdrop], ?_⟩
    rw [hall, hdrop, List.length_drop, hmap]

theorem C7_witness :
    capOK (applyOps [] []) ∧
    getChatMessages (sendMany [] "x" wMsgs) "x" = (wMsgs.map (mkMsg "x")).drop 50 :=
  ⟨C7_transcript_cap.1 [] [] (by decide),
   (C7_transcript_cap.2 [] "x" wMsgs rfl (by rfl)).1⟩

/-!
### Viewer-count lemmas (C8)
-/

theorem mem_storeList (gl : List StreamData) (s e : StreamData)
    (he : e ∈ (if s.isLive = true then
        gl.filter (fun x => decide (x.id ≠ s.id)) ++ [s]
      else gl.filter (fun x => decide (x.id ≠ s.id)))) : e ∈ gl ∨ e = s := by
  by_cases hl : s.isLive = true
  · rw [if_pos hl] at he
    rcases List.mem_append.mp he with h1 | h1
    · exact Or.inl (List.mem_of_mem_filter h1)
    · exact Or.inr (by simpa using h1)
  · rw [if_neg hl] at he
    exact Or.inl (List.mem_of_mem_filter he)

theorem countsOK_storeStream (st : Storage) (s : StreamData) (h : countsOK st)
    (hs : 0 ≤ s.viewerCount) : countsOK (storeStream st s) := by
  have h1 : countsOK (setItem st (Key.stream s.id) (Value.streamVal s)) :=
    StOK_setItem _ _ _ _ h (by simp only [countsPair, decide_eq_true_eq]; exact hs)
  rcases hg : getItem (setItem st (Key.stream s.id) (Value.streamVal s))
      Key.globalIdx with _ | v
  · simp only [storeStream, hg]
    refine StOK_setItem _ _ _ _ h1 ?_
    simp only [countsPair, List.all_eq_true, decide_eq_true_eq]
    intro e he
    rcases mem_storeList [] s e (by simpa using he) with h2 | h2
    · simp at h2
    · rw [h2]; exact hs
  · rcases v with s' | l | l | _
    · simp only [storeStream, hg]
      refine StOK_setItem _ _ _ _ h1 ?_
      simp only [countsPair, List.all_eq_true, decide_eq_true_eq]
      intro e he
      rcases mem_storeList [] s e (by simpa using he) with h2 | h2
      · simp at h2
      · rw [h2]; exact hs
    · simp only [storeStream, hg]
      refine StOK_setItem _ _ _ _ h1 ?_
      simp only [countsPair, List.all_eq_true, decide_eq_true_eq]
      intro e he
      rcases mem_storeList l s e (by simpa using he) with h2 | h2
      · have := StOK_getItem countsPair _ _ _ h1 hg
        simp only [countsPair, List.all_eq_true, decide_eq_true_eq] at this
        exact this e h2
      · rw [h2]; exact hs
    · simp only [storeStream, hg]
      refine StOK_setItem _ _ _ _ h1 ?_
      simp only [countsPair, List.all_eq_true, decide_eq_true_eq]
      intro e he
      rcases mem_storeList [] s e (by simpa using he) with h2 | h2
      · simp at h2
      · rw [h2]; exact hs
    · simp only [storeStream, hg]
      refine StOK_setItem _ _ _ _ h1 ?_
      simp only [countsPair, List.all_eq_true, decide_eq_true_eq]
      intro e he
      rcases mem_storeList [] s e (by simpa using he) with h2 | h2
      · simp at h2
      · rw [h2]; exact hs

theorem countsOK_updateStream (st : Storage) (i : String) (u : StreamUpdate) (now : Int)
    (h : countsOK st) (hc : ∀ c, u.viewerCount = some c → 0 ≤ c) :
    countsOK (updateStream st i u now).2 := by
  rcases hr : getItem st (Key.stream i) with _ | v
  · simp only [updateStream, hr]
    exact h
  · rcases v with s | l | l | _
    · simp only [updateStream, hr]
      refine countsOK_storeStream _ _ h ?_
      rcases hu : u.viewerCount with _ | c
      · have hs0 := StOK_getItem countsPair st _ _ h hr
        simp only [countsPair, decide_eq_true_eq] at hs0
        simpa [applyUpdate, hu] using hs0
      · simpa [applyUpdate, hu] using hc c hu
    · simp only [updateStream, hr]
      exact h
    · simp only [updateStream, hr]
      exact h
    · simp only [updateStream, hr]
      exact h

theorem countsOK_leaveStream (st : Storage) (streamId vn : String) (mid : String)
    (t : Int) (h : countsOK st) : countsOK (leaveStream st streamId vn mid t).2 := by
  obtain ⟨hg, _⟩ := getAll_counts st t h
  rcases hf : (getAllActiveStreams st t).1.find? (fun s => s.id == streamId) with _ | r
  · simp only [leaveStream, hf]
    exact hg
  · simp only [leaveStream, hf]
    refine StOK_setItem _ _ _ _ ?_ rfl
    refine countsOK_updateStream _ _ _ _ hg ?_
    intro c hcc
    have h2 : some (max 0 (r.viewerCount - 1)) = some c := hcc
    injection h2 with h3
    rw [← h3]
    exact le_max_left _ _

theorem getItem_storeStream_self (st : Storage) (s : StreamData) :
    getItem (storeStream st s) (Key.stream s.id) = some (Value.streamVal s) := by
  simp only [storeStream]
  rw [getItem_setItem_ne _ _ _ _ (by simp), getItem_setItem_self]

theorem updateStream_writes (st : Storage) (i : String) (u : StreamUpdate) (now : Int)
    (s : StreamData) (hr : getItem st (Key.stream i) = some (Value.streamVal s))
    (hid : u.id = none) (hsid : s.id = i) :
    getItem (updateStream st i u now).2 (Key.stream i) =
      some (Value.streamVal { applyUpdate s u with lastUpdate := now }) := by
  simp only [updateStream, hr]
  have h1 : ({ applyUpdate s u with lastUpdate := now } : StreamData).id = i := by
    simp [applyUpdate, hid, hsid]
  rw [← h1]
  exact getItem_storeStream_self st _

/-- On an index-coherent state (`WF`: records filed under their own ids;
`IdxOK`: every global-index entry equals its stored record), when the
embedded active-stream lookup of `joinStream` finds the stream, the join
succeeds, the stored record at that moment is exactly the found record `r`,
and the write sets the stored viewer count to `r.viewerCount + 1` — an
increment by exactly one.  Both coherence hypotheses are needed: on `stC1`
(where `IdxOK` fails) the lookup returns a record whose key the same pass
has already deleted, and `joinStream` returns `true` without storing
anything (see the C8 counterexample). -/
theorem join_increments (st : Storage) (streamId vn : String) (va : Option String)
    (mid : String) (t : Int) (r : StreamData)
    (hwf : WF st) (hidx : IdxOK st = true)
    (hf : (getAllActiveStreams st t).1.find? (fun s => s.id == streamId) = some r) :
    (joinStream st streamId vn va mid t).1 = true ∧
    getItem (getAllActiveStreams st t).2 (Key.stream streamId) =
      some (Value.streamVal r) ∧
    getItem (joinStream st streamId vn va mid t).2 (Key.stream streamId) =
      some (Value.streamVal
        { r with viewerCount := r.viewerCount + 1, lastUpdate := t }) := by
  have hrid : r.id = streamId := by
    have := List.find?_some hf
    simpa using this
  have hmem : r ∈ (getAllActiveStreams st t).1 := List.mem_of_find?_eq_some hf
  obtain ⟨hlive, hfresh, hrec⟩ := getAll_mem_record st t hwf hidx r hmem
  rw [hrid] at hrec
  have hf2 : List.find? (fun s => s.id == streamId) (getAllStreamsFromStorage st t).1 =
      some r := hf
  refine ⟨by simp only [joinStream, hf], hrec, ?_⟩
  simp only [joinStream, getAllActiveStreams, hf2]
  rw [getItem_setItem_ne _ _ _ _ (by simp)]
  rw [updateStream_writes _ _ _ _ r hrec rfl hrid]
  simp [applyUpdate, noUpdate]

/-- C8, counterexample, refuting the join half of the claim in two ways.
In `stC8` at `now = 90000000`, record `b` is live and fresh (active), but
`joinStream` fails and leaves its stored viewer count unchanged: scanning
slot 0 deletes the stale record `a`, which shifts `b` into the
already-visited slot, and `b` has no index entry.  And in `stC1` (records
filed under their own ids, but the index entry for `a` diverging from the
stored record), the embedded lookup does return `recA`, `joinStream` even
returns `true` — yet afterwards no record for `a` exists at all: the same
reconciliation pass deleted the stale record after the index walk pushed it,
so the silent `updateStream` failure increments nothing.  Either way,
`joinStream` on an active stream does not increment `viewerCount` by 1. -/
theorem C8_counterexample :
    (recB.isLive = true ∧ (90000000 : Int) - recB.startTime < maxAge ∧
      getItem stC8 (Key.stream "b") = some (Value.streamVal recB) ∧
      (joinStream stC8 "b" "V" none "m" 90000000).1 = false ∧
      getItem (joinStream stC8 "b" "V" none "m" 90000000).2 (Key.stream "b") =
        some (Value.streamVal recB)) ∧
    (WF stC1 ∧ IdxOK stC1 = false ∧
      (getAllActiveStreams stC1 90000000).1.find? (fun s => s.id == "a") =
        some recA ∧
      (joinStream stC1 "a" "V" none "m" 90000000).1 = true ∧
      getItem (joinStream stC1 "a" "V" none "m" 90000000).2 (Key.stream "a") =
        none) := by decide

/-- C8, amended: no `leaveStream` write ever drives a stored viewer count
below 0 (non-negativity of all stored counts is preserved by any sequence of
`leaveStream` calls, the decrement being clamped at 0), and on index-coherent
states — records filed under their own ids (`WF`) and every global-index
entry equal to its stored record (`IdxOK`) — `joinStream` increments the
stored viewer count by exactly 1 whenever its embedded lookup returns the
stream.  Outside those conditions the increment is not guaranteed in either
direction (see the counterexample): the lookup can miss an active record
(join fails, no change), and on an index/record-divergent state it can
return a record the same pass already deleted (join "succeeds" yet stores
nothing). -/
theorem C8_viewer_counts :
    (∀ (ps : List (String × String × String × Int)) (st : Storage), countsOK st →
      countsOK (ps.foldl
        (fun s p => (leaveStream s p.1 p.2.1 p.2.2.1 p.2.2.2).2) st)) ∧
    (∀ (st : Storage) (streamId vn : String) (va : Option String) (mid : String)
        (t : Int) (r : StreamData), WF st → IdxOK st = true →
      (getAllActiveStreams st t).1.find? (fun s => s.id == streamId) = some r →
      (joinStream st streamId vn va mid t).1 = true ∧
      getItem (getAllActiveStreams st t).2 (Key.stream streamId) =
        some (Value.streamVal r) ∧
      getItem (joinStream st streamId vn va mid t).2 (Key.stream streamId) =
        some (Value.streamVal
          { r with viewerCount := r.viewerCount + 1, lastUpdate := t })) := by
  constructor
  · intro ps
    induction ps with
    | nil => intro st h; exact h
    | cons p rest ih =>
        intro st h
        exact ih _ (countsOK_leaveStream st p.1 p.2.1 p.2.2.1 p.2.2.2 h)
  · intro st streamId vn va mid t r hwf hidx hf
    exact join_increments st streamId vn va mid t r hwf hidx hf

theorem C8_witness :
    countsOK (([((("a" : String), ("V" : String), ("m" : String), (5 : Int)))] :
        List (String × String × String × Int)).foldl
      (fun s p => (leaveStream s p.1 p.2.1 p.2.2.1 p.2.2.2).2) stIdx) ∧
    (joinStream stIdx "a" "V" none "m" 5).1 = true ∧
    getItem (getAllActiveStreams stIdx 5).2 (Key.stream "a") =
      some (Value.streamVal recA) ∧
    getItem (joinStream stIdx "a" "V" none "m" 5).2 (Key.stream "a") =
      some (Value.streamVal
        { recA with viewerCount := recA.viewerCount + 1, lastUpdate := 5 }) :=
  ⟨C8_viewer_counts.1 [("a", "V", "m", 5)] stIdx (by decide),
   C8_viewer_counts.2 stIdx "a" "V" none "m" 5 recA (by decide) (by decide) (by decide)⟩

/-!
### Event-hub lemmas (C9)
-/

theorem getListeners_setListeners_self (ls : Listeners σ ε) (e : String)
    (cbs : List (Callback σ ε)) : getListeners (setListeners ls e cbs) e = cbs := by
  induction ls with
  | nil => simp [setListeners, getListeners]
  | cons p rest ih =>
      obtain ⟨e', old⟩ := p
      by_cases h : e' = e
      · simp [setListeners, getListeners, h]
      · simp [setListeners, getListeners, h, ih]

/-- C9: with two subscribers registered in order `f` then `g`, emission runs
the previously registered callbacks, then `f`, then `g` — synchronously in
registration order.  The per-callback `try`/`catch` keeps `f`'s state effect
and swallows its exception, so even when `f` always throws (the hypothesis),
`g` is still invoked on the state `f` left behind, and `triggerListeners`
itself is a total function into the state: no exception reaches the emitting
call site. -/
theorem C9_listener_isolation {σ ε : Type} (ls : Listeners σ ε) (event : String)
    (f g : Callback σ ε) (s : σ)
    (hthrows : ∀ x, ((f x).2).isSome = true) :
    triggerListeners (onEvent (onEvent ls event f) event g) event s =
      (g ((f (runCallbacks (getListeners ls event) s)).1)).1 := by
  simp only [triggerListeners, onEvent, getListeners_setListeners_self]
  simp [runCallbacks, List.foldl_append]

theorem C9_witness :
    triggerListeners (onEvent (onEvent ([] : Listeners Int String) "e" wThrow)
      "e" wTame) "e" 3 = 8 :=
  (C9_listener_isolation [] "e" wThrow wTame 3 (fun _ => rfl)).trans (by decide)

/-- C10: `sendMessage` performs no existence check on its stream id: on any
well-shaped storage — including one with no record for the id, or where the
stream has ended — it returns `true`, writes the transcript extended by the
new message (truncated to the most recent 100), and the message is
retrievable via `getChatMessages`. -/
theorem C10_send_no_existence_check (st : Storage) (streamId sender message : String)
    (addr : Option String) (msgId : String) (now : Int) (hws : WS st) :
    (sendMessage st streamId sender message addr msgId now).1 = true ∧
    getChatMessages (sendMessage st streamId sender message addr msgId now).2
      streamId =
      lastN 100 (getChatMessages st streamId ++
        [⟨msgId, streamId, sender, addr, message, now, MsgType.message⟩]) ∧
    (⟨msgId, streamId, sender, addr, message, now, MsgType.message⟩ : ChatMessage) ∈
      getChatMessages (sendMessage st streamId sender message addr msgId now).2
        streamId := by
  refine ⟨rfl, ?_, ?_⟩
  · simp only [sendMessage]
    exact getChat_setItem_self _ _ _
  · simp only [sendMessage]
    rw [getChat_setItem_self]
    exact self_mem_lastN_append 100 (by norm_num) _ _

theorem C10_witness :
    (sendMessage [] "ghost" "A" "hello" none "m1" 3).1 = true ∧
    getChatMessages (sendMessage [] "ghost" "A" "hello" none "m1" 3).2 "ghost" =
      lastN 100 (getChatMessages [] "ghost" ++
        [⟨"m1", "ghost", "A", none, "hello", 3, MsgType.message⟩]) ∧
    (⟨"m1", "ghost", "A", none, "hello", 3, MsgType.message⟩ : ChatMessage) ∈
      getChatMessages (sendMessage [] "ghost" "A" "hello" none "m1" 3).2 "ghost" :=
  C10_send_no_existence_check [] "ghost" "A" "hello" none "m1" 3 (by decide)

end StreamSync
